import Mathlib

/-!
# netpoll reactor core: a shallow embedding

The development follows the Go sources of the reactor:

* `poll.go`                 — the `PollEvent` enumeration;
* `sys_epoll_linux.go`      — `epollevent`, `EPOLLET`, `EpollCtl`, `EpollWait`;
* `poll_default_linux.go`   — `defaultPoll` with `Wait`, `handler`, `Close`,
                              `Trigger`, `Control`, `detaches`;
* `fd_operator_cache.go`    — `operatorCache` with `alloc` and `free`;
* `netpoll_server.go`       — `server.Close`.

Pointers to operators are heap addresses (natural numbers); a pointer that
may be `nil` is an `Option`.  Calls
that leave the program (system calls, user callbacks, methods of the
operator) are recorded in a trace of `Effect`s, and what they answer is
supplied by an environment.
-/

namespace Netpoll

/-! ## Kernel constants (package `syscall`, linux/amd64) -/

/-- Error numbers, `syscall.Errno`. -/
abbrev Errno := Nat

def EINTR : Errno := 0x4
def EAGAIN : Errno := 0xb

def EPOLLIN : Nat := 0x1
def EPOLLOUT : Nat := 0x4
def EPOLLERR : Nat := 0x8
def EPOLLHUP : Nat := 0x10
def EPOLLRDHUP : Nat := 0x2000

/-- The constant `syscall.EPOLLET`, which is negative on this platform. -/
def syscall_EPOLLET : Int := -0x80000000

/-- Source: `const EPOLLET = -syscall.EPOLLET` in `sys_epoll_linux.go`. -/
def EPOLLET : Nat := (-syscall_EPOLLET).toNat

def EPOLL_CTL_ADD : Int := 0x1
def EPOLL_CTL_DEL : Int := 0x2
def EPOLL_CTL_MOD : Int := 0x3

def MSG_ERRQUEUE : Nat := 0x2000

/-! ## `poll.go`: the `PollEvent` enumeration -/

/-- Source: `type PollEvent int`. -/
abbrev PollEvent := Int

def PollReadable : PollEvent := 0x1
def PollWritable : PollEvent := 0x2
def PollDetach : PollEvent := 0x3
def PollModReadable : PollEvent := 0x4
def PollR2RW : PollEvent := 0x5
def PollRW2R : PollEvent := 0x6

/-! ## The operator record -/

/-- A function value is identified by a number; `none` is the `nil` function. -/
abbrev Callback := Option Nat

/-- Modelled from the spec: the declaration of `FDOperator` (file
`fd_operator.go`) is not among the sources.  The fields are the ones the
sources read and write (`FD`, `OnRead`, `OnWrite`, `OnHup`, `Inputs`,
`InputAck`, `Outputs`, `OutputAck`, `poll`, `next`) together with the
in-use reference count of the spec's data model (`state`). -/
structure FDOperator where
  FD : Int
  OnRead : Callback
  OnWrite : Callback
  OnHup : Callback
  Inputs : Callback
  InputAck : Callback
  Outputs : Callback
  OutputAck : Callback
  poll : Option Nat
  next : Option Nat
  state : Int
deriving DecidableEq, Repr

/-- The zero value `FDOperator{}`. -/
def FDOperator.zero : FDOperator :=
  { FD := 0, OnRead := none, OnWrite := none, OnHup := none,
    Inputs := none, InputAck := none, Outputs := none, OutputAck := none,
    poll := none, next := none, state := 0 }

/-- Modelled from the spec: `inuse()` is not among the sources; the spec says
"`inuse()` increments a counter when the operator is registered with the
kernel". -/
def FDOperator.inuse (op : FDOperator) : FDOperator :=
  { op with state := op.state + 1 }

/-- Modelled from the spec: `unused()` is not among the sources; the spec says
"`unused()` decrements on detach". -/
def FDOperator.unused (op : FDOperator) : FDOperator :=
  { op with state := op.state - 1 }

/-- Modelled from the spec: `isUnused()` is not among the sources; the spec
says `free` requires the operator idle and that "`free(op)` while
`op.inuse > 0` triggers the programmer-error signal", so the operator is
unused when its counter is zero. -/
def FDOperator.isUnused (op : FDOperator) : Bool :=
  op.state == 0

/-- Modelled from the spec: `reset()` is not among the sources; the spec says
that on `free` the "fields [are] reset" and that "all its mutable fields
are reset (no stale callbacks)". -/
def FDOperator.reset (_op : FDOperator) : FDOperator :=
  FDOperator.zero

/-- The heap of operators. -/
abbrev Heap := Nat → FDOperator

/-- Store `v` at address `a`. -/
def Heap.set (h : Heap) (a : Nat) (v : FDOperator) : Heap :=
  fun b => if b = a then v else h b

/-! ## `sys_epoll_linux.go` -/

/-- Source: `type epollevent struct { events uint32; data [8]byte }`; the
eight bytes of `data` hold the operator's address. -/
structure epollevent where
  events : Nat
  data : Nat
deriving DecidableEq, Repr

/-! ## The trace of external calls -/

/-- Calls that leave the modelled code, in the order the code makes them. -/
inductive Effect where
  /-- The method `operator.inuse()`. -/
  | inuse (a : Nat)
  /-- The method `operator.unused()`. -/
  | unused (a : Nat)
  /-- The call `EpollCtl(epfd, op, fd, &evt)`. -/
  | epollCtl (epfd : Int) (op : Int) (fd : Int) (evt : epollevent)
  /-- The call `EpollWait(epfd, events, msec)` with `len(events)` and
  `len(barriers)` at the call. -/
  | epollWait (epfd : Int) (nevents : Nat) (nbarriers : Nat) (msec : Int)
  /-- The call `runtime.Gosched()`. -/
  | gosched
  /-- The call `syscall.Read(fd, buf)`. -/
  | sysRead (fd : Int)
  /-- The call `syscall.Write(fd, payload)`. -/
  | sysWrite (fd : Int) (payload : List Nat)
  /-- The call `syscall.Close(fd)`. -/
  | sysClose (fd : Int)
  /-- The store `atomic.StoreUint32(&p.trigger, 0)`. -/
  | storeTrigger
  /-- The method `operator.do()` and what it answered. -/
  | opDo (a : Nat) (can : Bool)
  /-- The method `operator.done()`. -/
  | opDone (a : Nat)
  /-- The call `syscall.Recvmsg(fd, nil, nil, flags)`. -/
  | recvmsg (fd : Int) (flags : Nat)
  /-- The callback `operator.OnRead(p)`. -/
  | onRead (a : Nat) (f : Nat)
  /-- The callback `operator.OnWrite(p)`. -/
  | onWrite (a : Nat) (f : Nat)
  /-- The callback `operator.Inputs(bs)`. -/
  | inputs (a : Nat)
  /-- The call `readv(fd, bs, ivs)`. -/
  | readv (fd : Int)
  /-- The callback `operator.InputAck(n)`. -/
  | inputAck (a : Nat) (n : Int)
  /-- The callback `operator.Outputs(bs)`. -/
  | outputs (a : Nat)
  /-- The call `sendmsg(fd, bs, ivs, zerocopy)`. -/
  | sendmsg (fd : Int) (zerocopy : Bool)
  /-- The callback `operator.OutputAck(n)`. -/
  | outputAck (a : Nat) (n : Int)
  /-- The call `log.Printf`. -/
  | log (fd : Int) (err : Errno)
  /-- The statement `go func(onhups) {...}(onhups)`: a task is spawned that
  calls the callbacks `calls`, in this order, each as `onhups[i](p)`. -/
  | spawn (calls : List Nat)
deriving DecidableEq, Repr

/-! ## `poll_default_linux.go`: the poller -/

/-- Source: `type barrier struct { bs [][]byte; ivs []syscall.Iovec }`; only
the lengths of the two scratch arrays matter here. -/
structure barrier where
  bs : Nat
  ivs : Nat
deriving DecidableEq, Repr

/-- Source: `type defaultPoll struct` with the embedded `pollArgs`.  `wop` is
the address of the wake operator, `trigger` a `uint32`. -/
structure defaultPoll where
  size : Nat
  caps : Nat
  events : List epollevent
  barriers : List barrier
  fd : Int
  wop : Nat
  buf : List Nat
  trigger : Nat
deriving Repr

/-- Source: `EpollCtl`, which turns the kernel's `Errno(0)` into `nil`. -/
def EpollCtl (raw : Errno) : Option Errno :=
  if raw = 0 then none else some raw

/-- What `Control` leaves behind: the returned error, the heap and the calls
made. -/
structure ControlResult where
  err : Option Errno
  heap : Heap
  trace : List Effect

/-- Source: `func (a *pollArgs) reset(size, caps int)`. -/
def defaultPoll.reset (p : defaultPoll) (size caps : Nat) : defaultPoll :=
  { p with
    size := size, caps := caps,
    events := List.replicate size ⟨0, 0⟩,
    barriers := List.replicate size ⟨caps, caps⟩ }

/-- Source: `func (p *defaultPoll) Control(operator *FDOperator, event PollEvent) error`.
`ctl` is the error number with which the kernel answers `epoll_ctl`. -/
def Control (ctl : Int → Int → Int → epollevent → Errno)
    (p : defaultPoll) (h : Heap) (operator : Nat) (event : PollEvent) : ControlResult :=
  if event = PollReadable then
    let h1 := h.set operator (h operator).inuse
    let evt : epollevent := ⟨EPOLLIN ||| EPOLLRDHUP ||| EPOLLERR, operator⟩
    { err := EpollCtl <| ctl p.fd EPOLL_CTL_ADD (h1 operator).FD evt, heap := h1,
      trace := [.inuse operator, .epollCtl p.fd EPOLL_CTL_ADD (h1 operator).FD evt] }
  else if event = PollModReadable then
    let h1 := h.set operator (h operator).inuse
    let evt : epollevent := ⟨EPOLLIN ||| EPOLLRDHUP ||| EPOLLERR, operator⟩
    { err := EpollCtl <| ctl p.fd EPOLL_CTL_MOD (h1 operator).FD evt, heap := h1,
      trace := [.inuse operator, .epollCtl p.fd EPOLL_CTL_MOD (h1 operator).FD evt] }
  else if event = PollDetach then
    let evt : epollevent := ⟨EPOLLIN ||| EPOLLOUT ||| EPOLLRDHUP ||| EPOLLERR, operator⟩
    let err := EpollCtl <| ctl p.fd EPOLL_CTL_DEL (h operator).FD evt
    -- the deferred `operator.unused()` runs when `EpollCtl` has returned
    { err := err, heap := h.set operator (h operator).unused,
      trace := [.epollCtl p.fd EPOLL_CTL_DEL (h operator).FD evt, .unused operator] }
  else if event = PollWritable then
    let h1 := h.set operator (h operator).inuse
    let evt : epollevent := ⟨EPOLLET ||| EPOLLOUT ||| EPOLLRDHUP ||| EPOLLERR, operator⟩
    { err := EpollCtl <| ctl p.fd EPOLL_CTL_ADD (h1 operator).FD evt, heap := h1,
      trace := [.inuse operator, .epollCtl p.fd EPOLL_CTL_ADD (h1 operator).FD evt] }
  else if event = PollR2RW then
    let evt : epollevent := ⟨EPOLLIN ||| EPOLLOUT ||| EPOLLRDHUP ||| EPOLLERR, operator⟩
    { err := EpollCtl <| ctl p.fd EPOLL_CTL_MOD (h operator).FD evt, heap := h,
      trace := [.epollCtl p.fd EPOLL_CTL_MOD (h operator).FD evt] }
  else if event = PollRW2R then
    let evt : epollevent := ⟨EPOLLIN ||| EPOLLRDHUP ||| EPOLLERR, operator⟩
    { err := EpollCtl <| ctl p.fd EPOLL_CTL_MOD (h operator).FD evt, heap := h,
      trace := [.epollCtl p.fd EPOLL_CTL_MOD (h operator).FD evt] }
  else
    -- no case of the switch matches: `op` and `evt.events` keep their zero value
    let evt : epollevent := ⟨0, operator⟩
    { err := EpollCtl <| ctl p.fd 0 (h operator).FD evt, heap := h,
      trace := [.epollCtl p.fd 0 (h operator).FD evt] }

/-- The answers of the outside world to the calls `handler` makes while it
works on one batch.  The first argument is the index `i` of the event in the
batch (for `epollCtl`: the index in `hups`). -/
structure HandlerEnv where
  /-- The bytes `syscall.Read` stores at the front of `p.buf`. -/
  wakeRead : Nat → List Nat
  /-- The answer of `operator.do()`. -/
  doRes : Nat → Bool
  /-- The error of `syscall.Recvmsg`. -/
  recvmsgErr : Nat → Option Errno
  /-- The length of the vector `operator.Inputs` returns. -/
  inputsLen : Nat → Nat
  /-- The results `n, err` of `readv`. -/
  readvRes : Nat → Int × Option Errno
  /-- The length of the vector `operator.Outputs` returns. -/
  outputsLen : Nat → Nat
  /-- The results `n, err` of `sendmsg`. -/
  sendmsgRes : Nat → Int × Option Errno
  /-- The kernel's answer to the `epoll_ctl` of the detach of `hups[j]`. -/
  epollCtl : Nat → Int → Int → Int → epollevent → Errno

/-- What the body of the `for i := range events` loop of `handler` leaves
behind for one event. -/
structure EventOutcome where
  /-- The body ran `return true`. -/
  closed : Bool
  buf : List Nat
  trigger : Nat
  hups : List Nat
  /-- The calls made for this event. -/
  trace : List Effect
deriving DecidableEq, Repr

/-- The effect of `syscall.Read(fd, buf)` on `buf` when the kernel delivers
`bytes`. -/
def readInto (buf bytes : List Nat) : List Nat :=
  bytes.take buf.length ++ buf.drop bytes.length

/-- Source: the body of the loop of `handler` for `events[i] = ev`, with the
current `p.buf`, `p.trigger` and `hups`. -/
def handleEvent (env : HandlerEnv) (p : defaultPoll) (h : Heap) (i : Nat) (ev : epollevent)
    (buf : List Nat) (trigger : Nat) (hups : List Nat) : EventOutcome :=
  let operator := ev.data
  if (h operator).FD = (h p.wop).FD then
    -- trigger or exit gracefully
    let buf1 := readInto buf (env.wakeRead i)
    if buf1.headD 0 > 0 then
      { closed := true, buf := buf1, trigger := 0, hups := hups,
        trace := [.sysRead (h p.wop).FD, .storeTrigger,
                  .sysClose (h p.wop).FD, .sysClose p.fd] }
    else
      { closed := false, buf := buf1, trigger := 0, hups := hups,
        trace := [.sysRead (h p.wop).FD, .storeTrigger] }
  else if !env.doRes i then
    { closed := false, buf := buf, trigger := trigger, hups := hups,
      trace := [.opDo operator false] }
  else if ev.events &&& (EPOLLHUP ||| EPOLLRDHUP) ≠ 0 then
    { closed := false, buf := buf, trigger := trigger, hups := hups ++ [operator],
      trace := [.opDo operator true, .opDone operator] }
  else if ev.events &&& EPOLLERR ≠ 0 then
    if env.recvmsgErr i ≠ some EAGAIN then
      { closed := false, buf := buf, trigger := trigger, hups := hups ++ [operator],
        trace := [.opDo operator true, .recvmsg (h operator).FD MSG_ERRQUEUE,
                  .opDone operator] }
    else
      { closed := false, buf := buf, trigger := trigger, hups := hups,
        trace := [.opDo operator true, .recvmsg (h operator).FD MSG_ERRQUEUE,
                  .opDone operator] }
  else if ev.events &&& EPOLLIN ≠ 0 then
    match (h operator).OnRead with
    | some f =>
      { closed := false, buf := buf, trigger := trigger, hups := hups,
        trace := [.opDo operator true, .onRead operator f, .opDone operator] }
    | none =>
      if env.inputsLen i = 0 then
        { closed := false, buf := buf, trigger := trigger, hups := hups,
          trace := [.opDo operator true, .inputs operator, .opDone operator] }
      else
        let n := (env.readvRes i).1
        let err := (env.readvRes i).2
        match err with
        | none =>
          { closed := false, buf := buf, trigger := trigger, hups := hups,
            trace := [.opDo operator true, .inputs operator, .readv (h operator).FD,
                      .inputAck operator n, .opDone operator] }
        | some e =>
          if e ≠ EAGAIN ∧ e ≠ EINTR then
            { closed := false, buf := buf, trigger := trigger, hups := hups ++ [operator],
              trace := [.opDo operator true, .inputs operator, .readv (h operator).FD,
                        .inputAck operator n, .log (h operator).FD e, .opDone operator] }
          else
            { closed := false, buf := buf, trigger := trigger, hups := hups,
              trace := [.opDo operator true, .inputs operator, .readv (h operator).FD,
                        .inputAck operator n, .opDone operator] }
  else if ev.events &&& EPOLLOUT ≠ 0 then
    match (h operator).OnWrite with
    | some f =>
      { closed := false, buf := buf, trigger := trigger, hups := hups,
        trace := [.opDo operator true, .onWrite operator f, .opDone operator] }
    | none =>
      if env.outputsLen i = 0 then
        { closed := false, buf := buf, trigger := trigger, hups := hups,
          trace := [.opDo operator true, .outputs operator, .opDone operator] }
      else
        let n := (env.sendmsgRes i).1
        let err := (env.sendmsgRes i).2
        match err with
        | none =>
          { closed := false, buf := buf, trigger := trigger, hups := hups,
            trace := [.opDo operator true, .outputs operator,
                      .sendmsg (h operator).FD false,
                      .outputAck operator n, .opDone operator] }
        | some e =>
          if e ≠ EAGAIN then
            { closed := false, buf := buf, trigger := trigger, hups := hups ++ [operator],
              trace := [.opDo operator true, .outputs operator,
                        .sendmsg (h operator).FD false,
                        .outputAck operator n, .log (h operator).FD e, .opDone operator] }
          else
            { closed := false, buf := buf, trigger := trigger, hups := hups,
              trace := [.opDo operator true, .outputs operator,
                        .sendmsg (h operator).FD false,
                        .outputAck operator n, .opDone operator] }
  else
    -- no case of the switch matches
    { closed := false, buf := buf, trigger := trigger, hups := hups,
      trace := [.opDo operator true, .opDone operator] }

/-- What the loop of `handler` leaves behind. -/
structure LoopOutcome where
  closed : Bool
  buf : List Nat
  trigger : Nat
  hups : List Nat
  trace : List Effect
deriving DecidableEq, Repr

/-- Source: `for i := range events { ... }` in `handler`, from index `i` on,
`events` being the events not yet visited. -/
def handlerLoop (env : HandlerEnv) (p : defaultPoll) (h : Heap) :
    Nat → List epollevent → List Nat → Nat → List Nat → List Effect → LoopOutcome
  | _, [], buf, trigger, hups, trace =>
    { closed := false, buf := buf, trigger := trigger, hups := hups, trace := trace }
  | i, ev :: rest, buf, trigger, hups, trace =>
    let o := handleEvent env p h i ev buf trigger hups
    if o.closed then
      { closed := true, buf := o.buf, trigger := o.trigger, hups := o.hups,
        trace := trace ++ o.trace }
    else
      handlerLoop env p h (i + 1) rest o.buf o.trigger o.hups (trace ++ o.trace)

/-- What the first loop of `detaches` leaves behind. -/
structure DetachOutcome where
  heap : Heap
  onhups : List Callback
  trace : List Effect

/-- Source: the loop `for i := range hups { onhups[i] = hups[i].OnHup;
p.Control(hups[i], PollDetach) }` of `detaches`, from index `j` on. -/
def detachLoop (env : HandlerEnv) (p : defaultPoll) :
    Nat → List Nat → Heap → List Callback → List Effect → DetachOutcome
  | _, [], h, onhups, trace => { heap := h, onhups := onhups, trace := trace }
  | j, op :: rest, h, onhups, trace =>
    let onhup := (h op).OnHup
    let r := Control (env.epollCtl j) p h op PollDetach
    detachLoop env p (j + 1) rest r.heap (onhups ++ [onhup]) (trace ++ r.trace)

/-- Source: the body of the task `detaches` spawns: the callbacks it calls,
in order (`if onhups[i] != nil { onhups[i](p) }`). -/
def hupTask (onhups : List Callback) : List Nat :=
  onhups.filterMap id

/-- Source: `func (p *defaultPoll) detaches(hups []*FDOperator) error`. -/
def detaches (env : HandlerEnv) (p : defaultPoll) (h : Heap) (hups : List Nat) :
    Heap × List Effect :=
  let r := detachLoop env p 0 hups h [] []
  (r.heap, r.trace ++ [.spawn (hupTask r.onhups)])

/-- What `handler` leaves behind. -/
structure HandlerResult where
  closed : Bool
  poll : defaultPoll
  heap : Heap
  /-- The operators collected in `hups` when the loop ended. -/
  hups : List Nat
  trace : List Effect

/-- Source: `func (p *defaultPoll) handler(events []epollevent) (closed bool)`. -/
def handler (env : HandlerEnv) (p : defaultPoll) (h : Heap) (events : List epollevent) :
    HandlerResult :=
  let l := handlerLoop env p h 0 events p.buf p.trigger [] []
  let p1 := { p with buf := l.buf, trigger := l.trigger }
  if l.closed then
    { closed := true, poll := p1, heap := h, hups := l.hups, trace := l.trace }
  else if l.hups.length > 0 then
    let d := detaches env p1 h l.hups
    { closed := false, poll := p1, heap := d.1, hups := l.hups, trace := l.trace ++ d.2 }
  else
    { closed := false, poll := p1, heap := h, hups := l.hups, trace := l.trace }

/-- Source: `[]byte{1, 0, 0, 0, 0, 0, 0, 0}`, the payload `Close` writes. -/
def closePayload : List Nat := [1, 0, 0, 0, 0, 0, 0, 0]

/-- Source: `[]byte{0, 0, 0, 0, 0, 0, 0, 1}`, the payload `Trigger` writes. -/
def triggerPayload : List Nat := [0, 0, 0, 0, 0, 0, 0, 1]

/-- Source: `func (p *defaultPoll) Close() error`; `w` is the error of the
write. -/
def defaultPoll.Close (w : Option Errno) (p : defaultPoll) (h : Heap) :
    Option Errno × List Effect :=
  (w, [.sysWrite (h p.wop).FD closePayload])

/-- Source: `func (p *defaultPoll) Trigger() error`; `w` is the error of the
write.  `atomic.AddUint32` wraps modulo `2^32`. -/
def defaultPoll.Trigger (w : Option Errno) (p : defaultPoll) (h : Heap) :
    Option Errno × defaultPoll × List Effect :=
  let t := (p.trigger + 1) % 2 ^ 32
  if t > 1 then
    (none, { p with trigger := t }, [])
  else
    (w, { p with trigger := t }, [.sysWrite (h p.wop).FD triggerPayload])

/-- The kernel's answer to one `epoll_wait`: the raw result `r0`, the error
number (0 when there is none) and the events it stored in the array. -/
structure WaitAnswer where
  r0 : Int
  errno : Errno
  events : List epollevent

/-- Source: `EpollWait`, which returns `int(r0)` and turns `Errno(0)` into
`nil`. -/
def EpollWait (a : WaitAnswer) : Int × Option Errno :=
  (a.r0, if a.errno = 0 then none else some a.errno)

/-- The event array after the kernel stored `evs` at its front. -/
def storeEvents (events evs : List epollevent) : List epollevent :=
  evs.take events.length ++ events.drop evs.length

/-- The outside world of `Wait`: the answer to the `k`-th `epoll_wait`, given
`len(events)` and `msec`, and the environment of the `k`-th dispatch. -/
structure WaitEnv where
  epollWait : Nat → Nat → Int → WaitAnswer
  handlerEnv : Nat → HandlerEnv

/-- What `Wait` leaves behind; `ret` is `none` while the loop is still
running, `some err` once `Wait` has returned `err`. -/
structure WaitResult where
  ret : Option (Option Errno)
  poll : defaultPoll
  heap : Heap
  trace : List Effect

/-- Source: `if n == p.size && p.size < 128*1024 { p.Reset(p.size<<1, caps) }`
at the head of the loop of `Wait`. -/
def resize (caps : Nat) (p : defaultPoll) (n : Int) : defaultPoll :=
  if n = (p.size : Int) ∧ p.size < 128 * 1024 then p.reset (p.size <<< 1) caps else p

/-- Source: the `for` loop of `Wait`, run for at most `fuel` iterations;
`k` counts the iterations already made, `msec` and `n` are the loop's
variables. -/
def waitLoop (caps : Nat) (env : WaitEnv) :
    Nat → Nat → defaultPoll → Heap → Int → Int → List Effect → WaitResult
  | 0, _, p, h, _, _, trace => { ret := none, poll := p, heap := h, trace := trace }
  | fuel + 1, k, p, h, msec, n, trace =>
    let p1 := resize caps p n
    let a := env.epollWait k p1.events.length msec
    let p2 := { p1 with events := storeEvents p1.events a.events }
    let trace1 := trace ++ [.epollWait p1.fd p1.events.length p1.barriers.length msec]
    let n1 := (EpollWait a).1
    let err := (EpollWait a).2
    if err ≠ none ∧ err ≠ some EINTR then
      { ret := some err, poll := p2, heap := h, trace := trace1 }
    else if n1 ≤ 0 then
      waitLoop caps env fuel (k + 1) p2 h (-1) n1 (trace1 ++ [.gosched])
    else
      let r := handler (env.handlerEnv k) p2 h (p2.events.take n1.toNat)
      if r.closed then
        { ret := some none, poll := r.poll, heap := r.heap, trace := trace1 ++ r.trace }
      else
        waitLoop caps env fuel (k + 1) r.poll r.heap 0 n1 (trace1 ++ r.trace)

/-- Source: `func (p *defaultPoll) Wait() (err error)`; `barriercap` is a
constant of the package that is not among the sources. -/
def defaultPoll.Wait (barriercap : Nat) (env : WaitEnv) (fuel : Nat) (p : defaultPoll)
    (h : Heap) : WaitResult :=
  waitLoop barriercap env fuel 0 (p.reset 128 barriercap) h (-1) 0 []

/-! ## `fd_operator_cache.go`: the operator pool -/

/-- Modelled from the spec: the constant `block4k` is not among the sources;
the spec says "allocate a page (≈4 KiB)". -/
def block4k : Nat := 4096

/-- Source: `type operatorCache struct`.  The spin lock `locked` serialises
concurrent callers and is not modelled: one caller runs at a time. -/
structure operatorCache where
  first : Option Nat
  cache : List Nat
deriving DecidableEq, Repr

/-- The pool together with the memory it lives in: `brk` is the address the
next `&FDOperator{}` gets. -/
structure Pool where
  heap : Heap
  brk : Nat
  c : operatorCache

/-- Source: `opcache = &operatorCache{cache: make([]*FDOperator, 0, 1024)}` in
`init`, in a memory whose addresses below `brk` are taken. -/
def Pool.init (heap : Heap) (brk : Nat) : Pool :=
  { heap := heap, brk := brk, c := { first := none, cache := [] } }

/-- Source: the loop `for i := uintptr(0); i < n; i++ { pd := &FDOperator{};
c.cache = append(c.cache, pd); pd.next = c.first; c.first = pd }` of `alloc`. -/
def growLoop : Nat → Pool → Pool
  | 0, s => s
  | n + 1, s =>
    let pd := s.brk
    growLoop n
      { heap := s.heap.set pd { FDOperator.zero with next := s.c.first },
        brk := s.brk + 1,
        c := { first := some pd, cache := s.c.cache ++ [pd] } }

/-- Source: `n := block4k / opSize; if n == 0 { n = 1 }` in `alloc`, `opSize`
being `unsafe.Sizeof(FDOperator{})`. -/
def slabCount (opSize : Nat) : Nat :=
  if block4k / opSize = 0 then 1 else block4k / opSize

/-- Source: `func (c *operatorCache) alloc() *FDOperator`.  The result is
`none` when `op.next` dereferences a `nil` pointer. -/
def alloc (opSize : Nat) (s : Pool) : Option (Nat × Pool) :=
  let s1 := if s.c.first = none then growLoop (slabCount opSize) s else s
  match s1.c.first with
  | none => none
  | some op => some (op, { s1 with c := { s1.c with first := (s1.heap op).next } })

/-- Source: `func (c *operatorCache) free(op *FDOperator)`.  The first
component is the value of the panic, when there is one; the second the state
left behind. -/
def free (s : Pool) (op : Nat) : Option String × Pool :=
  if !(s.heap op).isUnused then
    (some "op is using now", s)
  else
    let h1 := s.heap.set op (s.heap op).reset
    let h2 := h1.set op { h1 op with next := s.c.first }
    (none, { s with heap := h2, c := { s.c with first := some op } })

/-! ## `netpoll_server.go`: graceful close -/

/-- A value stored in `s.connections`: the connection `id` and whether the
assertion `value.(gracefulExit)` succeeds. -/
structure StoredConn where
  id : Nat
  graceful : Bool
deriving DecidableEq, Repr

/-- Calls `Shutdown` and `server.Close` make, in order. -/
inductive SrvEvent where
  /-- The call `evl.quit(nil)`. -/
  | quit
  /-- The call `s.operator.Control(PollDetach)`. -/
  | detachListener
  /-- The call `s.ln.Close()`. -/
  | closeListener
  /-- The call `isIdle()` on connection `c` and its answer. -/
  | isIdle (c : Nat) (idle : Bool)
  /-- The call `Close()` on connection `c`. -/
  | close (c : Nat)
  /-- The `select` statement; `done` tells whether the case `<-ctx.Done()`
  was taken (otherwise `<-ticker.C`). -/
  | select (done : Bool)
deriving DecidableEq, Repr

/-- The outside world of `server.Close`. -/
structure CloseEnv where
  /-- The answer of the `t`-th call of `isIdle()` overall, made on connection
  `c`. -/
  idle : Nat → Nat → Bool
  /-- Whether the `k`-th `select` takes the case `<-ctx.Done()`. -/
  ctxDone : Nat → Bool
  /-- The value of `ctx.Err()` once the context is done. -/
  ctxErr : Nat

/-- The variables of `server.Close`: the number `t` of `isIdle()` calls made,
the slice `conns`, the variable `count` and the calls made. -/
structure CloseState where
  t : Nat
  conns : List Nat
  count : Int
  trace : List SrvEvent
deriving DecidableEq, Repr

/-- Source: the callback of `s.connections.Range` in `server.Close`, applied
to the stored values in the order `Range` visits them. -/
def rangePass (env : CloseEnv) : List StoredConn → CloseState → CloseState
  | [], st => st
  | v :: vs, st =>
    if v.graceful then
      if !env.idle st.t v.id then
        rangePass env vs
          { st with t := st.t + 1, conns := st.conns ++ [v.id],
                    trace := st.trace ++ [.isIdle v.id false] }
      else
        rangePass env vs
          { st with t := st.t + 1, trace := st.trace ++ [.isIdle v.id true, .close v.id] }
    else
      rangePass env vs { st with trace := st.trace ++ [.close v.id] }

/-- Source: the loop `for i := count; i >= 0; i-- { ... }` of `server.Close`;
the first argument is `i + 1`.  The result is `none` when an index is out of
range. -/
def scanLoop (env : CloseEnv) : Nat → CloseState → Option CloseState
  | 0, st => some st
  | i + 1, st =>
    match st.conns[i]? with
    | none => none
    | some c =>
      if env.idle st.t c then
        match st.conns[st.count.toNat]? with
        | none => none
        | some last =>
          scanLoop env i
            { t := st.t + 1, conns := st.conns.set i last, count := st.count - 1,
              trace := st.trace ++ [.isIdle c true, .close c] }
      else
        scanLoop env i { st with t := st.t + 1, trace := st.trace ++ [.isIdle c false] }

/-- How `server.Close` ended. -/
inductive CloseReturn where
  /-- The loop was still running when the fuel ran out. -/
  | running
  /-- An index was out of range. -/
  | indexPanic
  /-- The returned error: `none` is `nil`. -/
  | returned (err : Option Nat)
deriving DecidableEq, Repr

/-- Source: the loop `for count >= 0 { ...; select { ... } }` of
`server.Close`, run for at most `fuel` iterations; `k` counts the `select`s
already made. -/
def closeLoop (env : CloseEnv) : Nat → Nat → CloseState → CloseReturn × CloseState
  | 0, _, st => if st.count ≥ 0 then (.running, st) else (.returned none, st)
  | fuel + 1, k, st =>
    if st.count ≥ 0 then
      match scanLoop env (st.count + 1).toNat st with
      | none => (.indexPanic, st)
      | some st1 =>
        if env.ctxDone k then
          (.returned (some env.ctxErr), { st1 with trace := st1.trace ++ [.select true] })
        else
          closeLoop env fuel (k + 1) { st1 with trace := st1.trace ++ [.select false] }
    else
      (.returned none, st)

/-- Source: the state of `server.Close` when `Range` starts: the listener was
detached and closed, `conns` is `nil`. -/
def closeStart : CloseState :=
  { t := 0, conns := [], count := 0, trace := [.detachListener, .closeListener] }

/-- Source: `func (s *server) Close(ctx context.Context) error` on the stored
values `vals`, in the order `Range` visits them. -/
def server.Close (env : CloseEnv) (fuel : Nat) (vals : List StoredConn) :
    CloseReturn × CloseState :=
  let st0 := rangePass env vals closeStart
  closeLoop env fuel 0 { st0 with count := (st0.conns.length : Int) - 1 }

/-- Source: `func (evl *eventLoop) Shutdown(ctx context.Context) error`;
`svr` is the content of `evl.svr`, `none` when it is `nil`. -/
def eventLoop.Shutdown (env : CloseEnv) (fuel : Nat) (svr : Option (List StoredConn)) :
    CloseReturn × List SrvEvent :=
  match svr with
  | none => (.returned none, [])
  | some vals =>
    ((server.Close env fuel vals).1, .quit :: (server.Close env fuel vals).2.trace)

/-! ## Runs and specifications -/

/-- The calls of one `p.Control(a, PollDetach)`, as `detaches` makes it. -/
def detachCalls (p : defaultPoll) (h : Heap) (a : Nat) : List Effect :=
  [.epollCtl p.fd EPOLL_CTL_DEL (h a).FD
     ⟨EPOLLIN ||| EPOLLOUT ||| EPOLLRDHUP ||| EPOLLERR, a⟩,
   .unused a]

/-- `N` calls of `Trigger` one after the other; `w n` is the error of the
write of call `n`. -/
def triggerN (w : Nat → Option Errno) (h : Heap) : Nat → defaultPoll → defaultPoll × List Effect
  | 0, p => (p, [])
  | n + 1, p =>
    let r := triggerN w h n p
    let t := defaultPoll.Trigger (w n) r.1 h
    (t.2.1, r.2 ++ t.2.2)

/-- The caller's writes to the fields of an operator it holds: every field
gets the value it has in `v`, but the link `next` and the count `state`,
which are not the caller's to write. -/
def setFields (v : FDOperator) (op : FDOperator) : FDOperator :=
  { v with next := op.next, state := op.state }

/-- The round trip `alloc → write fields → Control(add) → Control(PollDetach)
→ free → alloc`.  The result holds the operator of the first `alloc`, the
operator of the second, the panic of `free` (when there is one) and the pool
at the end; it is `none` when an `alloc` dereferences `nil`. -/
def roundTrip (opSize : Nat) (ctl1 ctl2 : Int → Int → Int → epollevent → Errno)
    (p : defaultPoll) (add : PollEvent) (v : FDOperator) (s : Pool) :
    Option (Nat × Nat × Option String × Pool) :=
  match alloc opSize s with
  | none => none
  | some (a, s1) =>
    let h2 := s1.heap.set a (setFields v (s1.heap a))
    let r1 := Control ctl1 p h2 a add
    let r2 := Control ctl2 p r1.heap a PollDetach
    let f := free { s1 with heap := r2.heap } a
    match alloc opSize f.2 with
    | none => none
    | some (b, s4) => some (a, b, f.1, s4)

/-- An operator value for the examples, with every field set. -/
def exOperator : FDOperator :=
  { FD := 9, OnRead := some 1, OnWrite := some 2, OnHup := some 3, Inputs := some 4,
    InputAck := some 5, Outputs := some 6, OutputAck := some 7, poll := some 8,
    next := none, state := 0 }

/-- What a user of the pool does: `allocop()`, `freeop(op)`, or a write of
the value `v` to the operator `op` it holds. -/
inductive PoolCmd where
  | alloc
  | free (op : Nat)
  | write (op : Nat) (v : FDOperator)

/-- The pool and the operators handed out by `alloc` and not yet given back
to `free`. -/
structure PoolRun where
  s : Pool
  held : List Nat

/-- One command of a run.  The result is `none` when the command is not
allowed: a `free` of an operator that is not held or not unused (double
free, foreign operator, operator in use), a write to an operator that is not
held; and when `alloc` dereferences `nil`. -/
def stepCmd (opSize : Nat) (r : PoolRun) : PoolCmd → Option PoolRun
  | .alloc =>
    match alloc opSize r.s with
    | none => none
    | some (a, s1) => some { s := s1, held := a :: r.held }
  | .free op =>
    if op ∈ r.held ∧ (r.s.heap op).isUnused = true then
      some { s := (free r.s op).2, held := r.held.erase op }
    else none
  | .write op v =>
    if op ∈ r.held then
      some { s := { r.s with heap := r.s.heap.set op v }, held := r.held }
    else none

/-- A sequence of commands, from left to right. -/
def runCmds (opSize : Nat) : List PoolCmd → PoolRun → Option PoolRun
  | [], r => some r
  | c :: cs, r =>
    match stepCmd opSize r c with
    | none => none
    | some r1 => runCmds opSize cs r1

/-- The free list: the operators reached from `first` along `next`. -/
def Chain (h : Heap) : Option Nat → List Nat → Prop
  | none, [] => True
  | some a, b :: l => a = b ∧ Chain h (h a).next l
  | none, _ :: _ => False
  | some _, [] => False

/-- The invariant of the pool: `fl` is the free list; no operator is twice on
it or held twice; no operator of the free list is held; free and held
operators are operators of the slab list, which lie below `brk`. -/
def PoolInv (r : PoolRun) (fl : List Nat) : Prop :=
  Chain r.s.heap r.s.c.first fl ∧ fl.Nodup ∧ r.held.Nodup ∧
  (∀ x ∈ fl, x ∉ r.held) ∧ (∀ x ∈ fl, x ∈ r.s.c.cache) ∧
  (∀ x ∈ r.held, x ∈ r.s.c.cache) ∧ (∀ x ∈ r.s.c.cache, x < r.s.brk)

/-- The answers of `isIdle()` when the connections `cs` are asked one after
the other, the first call being the `t`-th overall. -/
def results (env : CloseEnv) : Nat → List Nat → List (Nat × Bool)
  | _, [] => []
  | t, c :: cs => (c, env.idle t c) :: results env (t + 1) cs

/-- The calls one pass makes for a list of checks: `isIdle()` on each
connection, followed by `Close()` on it when the answer was `true`. -/
def emit (rs : List (Nat × Bool)) : List SrvEvent :=
  rs.flatMap fun x => if x.2 then [.isIdle x.1 true, .close x.1] else [.isIdle x.1 false]

/-- The connections that answered "not idle". -/
def busyOnes (rs : List (Nat × Bool)) : List Nat :=
  (rs.filter fun x => !x.2).map Prod.fst

/-- The connections that answered "idle". -/
def idleOnes (rs : List (Nat × Bool)) : List Nat :=
  (rs.filter fun x => x.2).map Prod.fst

/-- The connections `server.Close` still tracks: `conns[0..count]`. -/
def tracked (st : CloseState) : List Nat :=
  st.conns.take (st.count + 1).toNat

/-- The connections on which `Close()` was called, in the order of the calls. -/
def closedConns (tr : List SrvEvent) : List Nat :=
  tr.filterMap fun e => match e with
    | .close c => some c
    | _ => none

/-- Every `isIdle()` that answered `true` is followed at once by the `Close()`
of the same connection, and every `Close()` of a connection follows at once
an `isIdle()` of this connection that answered `true`. -/
def idleClosePaired : List SrvEvent → Bool
  | [] => true
  | .isIdle c true :: .close c1 :: rest => c == c1 && idleClosePaired rest
  | .isIdle _ true :: _ => false
  | .close _ :: _ => false
  | _ :: rest => idleClosePaired rest

/-- The invariant of `server.Close` over the stored connections `ids`: the
calls made so far are paired, every closed connection had answered "idle",
no connection was closed twice or is tracked twice, no closed connection is
tracked, and `count` is an index of `conns` or -1. -/
def CloseInv (env : CloseEnv) (ids : List Nat) (st : CloseState) : Prop :=
  idleClosePaired st.trace = true ∧
  (∀ c, SrvEvent.close c ∈ st.trace → ∃ t, env.idle t c = true) ∧
  (closedConns st.trace ++ tracked st).Nodup ∧
  (∀ c ∈ closedConns st.trace ++ tracked st, c ∈ ids) ∧
  ∃ m : Nat, st.count = (m : Int) - 1 ∧ m ≤ st.conns.length

/-- The calls of the read action of `handler`: `OnRead`, `Inputs`, `readv`,
`InputAck`. -/
def isReadAction : Effect → Bool
  | .onRead _ _ => true
  | .inputs _ => true
  | .readv _ => true
  | .inputAck _ _ => true
  | _ => false

/-- The calls of the write action of `handler`: `OnWrite`, `Outputs`,
`sendmsg`, `OutputAck`. -/
def isWriteAction : Effect → Bool
  | .onWrite _ _ => true
  | .outputs _ => true
  | .sendmsg _ _ => true
  | .outputAck _ _ => true
  | _ => false

/-- The error-queue probe of `handler`: `syscall.Recvmsg`. -/
def isProbe : Effect → Bool
  | .recvmsg _ _ => true
  | _ => false

/-- A call of `operator.do()`. -/
def isDo : Effect → Bool
  | .opDo _ _ => true
  | _ => false

/-- A call of `operator.do()` that answered `true`. -/
def isDoTrue : Effect → Bool
  | .opDo _ true => true
  | _ => false

/-- A call of `operator.done()`. -/
def isDone : Effect → Bool
  | .opDone _ => true
  | _ => false

/-- The kernel waits of a trace, in order: `len(events)`, `len(barriers)` and
`msec` of each `EpollWait`. -/
def waitCalls (tr : List Effect) : List (Nat × Nat × Int) :=
  tr.filterMap fun e => match e with
    | .epollWait _ ne nb ms => some (ne, nb, ms)
    | _ => none

/-- The rule of the saturation heuristic as the spec words it: `size` is
doubled when the previous wait returned exactly `size` events and `size` is
below `128 * 1024`, and is left alone otherwise. -/
def nextSize (size : Nat) (n : Int) : Nat :=
  if n = (size : Int) ∧ size < 128 * 1024 then 2 * size else size

/-- The waits `calls` follow the rule from the `k`-th wait on, `size` and `n`
being the array size and the event count before the first of them. -/
def SizeChain (env : WaitEnv) : Nat → Nat → Int → List (Nat × Nat × Int) → Prop
  | _, _, _, [] => True
  | k, size, n, (ne, nb, ms) :: rest =>
    ne = nextSize size n ∧ nb = ne ∧ SizeChain env (k + 1) ne (env.epollWait k ne ms).r0 rest

/-- The invariant of the arrays of the poller: both have length `size`, each
barrier holds `caps` slots of either kind, and `size` is `128 * 2^k` with
`k ≤ 10`. -/
def WaitInv (caps : Nat) (p : defaultPoll) : Prop :=
  p.events.length = p.size ∧ p.barriers = List.replicate p.size ⟨caps, caps⟩ ∧
  ∃ k, k ≤ 10 ∧ p.size = 128 * 2 ^ k

/-! ## Concrete inputs -/

/-- A heap for the examples: the wake operator lives at address 0 with
descriptor 3, the operator at address `a > 0` has descriptor `10 + a`; the
operator at address 2 has an `OnHup` callback, the one at address 7 has
`OnRead` and `OnWrite` callbacks. -/
def exHeap : Heap := fun a =>
  if a = 0 then { FDOperator.zero with FD := 3, state := 1 }
  else if a = 2 then { FDOperator.zero with FD := 12, OnHup := some 20, state := 1 }
  else if a = 7 then
    { FDOperator.zero with FD := 17, OnRead := some 70, OnWrite := some 71, state := 1 }
  else { FDOperator.zero with FD := 10 + (a : Int), state := 1 }

/-- A poller for the examples: epoll descriptor 4, wake operator at address 0. -/
def exPoll : defaultPoll :=
  { size := 128, caps := 32, events := [], barriers := [], fd := 4, wop := 0,
    buf := [0, 0, 0, 0, 0, 0, 0, 0], trigger := 1 }

/-- An outside world for the examples: every wake read delivers the payload
of `Close`, `readv` fails with `ECONNRESET` (104), `sendmsg` with `EINTR`. -/
def exEnv : HandlerEnv :=
  { wakeRead := fun _ => [1, 0, 0, 0, 0, 0, 0, 0],
    doRes := fun _ => true,
    recvmsgErr := fun _ => none,
    inputsLen := fun _ => 1,
    readvRes := fun _ => (-1, some 104),
    outputsLen := fun _ => 1,
    sendmsgRes := fun _ => (-1, some EINTR),
    epollCtl := fun _ _ _ _ _ => 0 }

/-- An outside world of `Wait` for the examples: every `epoll_wait` reports a
readable connection (address 5) and then the wake operator (address 0). -/
def exWaitEnv : WaitEnv :=
  { epollWait := fun _ _ _ => { r0 := 2, errno := 0, events := [⟨EPOLLIN, 5⟩, ⟨EPOLLIN, 0⟩] },
    handlerEnv := fun _ => exEnv }

/-- The pool after the first `alloc` in a fresh pool with 96-byte operators,
in a memory whose first free address is 100. -/
def exPool1 : Pool :=
  { growLoop (slabCount 96) (Pool.init exHeap 100) with
    c := { first := some 140,
           cache := (growLoop (slabCount 96) (Pool.init exHeap 100)).c.cache } }

/-- The state of the examples' pool after two operators were allocated and
the second (address 140, which had been written to) was freed. -/
def exRun : PoolRun :=
  { s := (free { exPool1 with
                 heap := exPool1.heap.set 140 exOperator,
                 c := { first := (exPool1.heap 140).next, cache := exPool1.c.cache } } 140).2,
    held := [141] }

/-- An outside world of `server.Close` for the examples: every connection
answers "not idle" to the first `isIdle()` call made and "idle" from then on;
the context is done at the first `select`; `ctx.Err()` is the error 1. -/
def exCloseEnv : CloseEnv :=
  { idle := fun t _ => decide (1 ≤ t), ctxDone := fun _ => true, ctxErr := 1 }

/-- The same outside world with a context that is never done. -/
def exCloseEnvTick : CloseEnv :=
  { idle := fun t _ => decide (1 ≤ t), ctxDone := fun _ => false, ctxErr := 1 }

/-- An outside world of `Wait` in which every `epoll_wait` is saturated: it
reports as many events as the array holds, all for the operator at address 5,
whose `do()` answers `false`. -/
def exSatEnv : WaitEnv :=
  { epollWait := fun _ ne _ =>
      { r0 := (ne : Int), errno := 0, events := List.replicate ne ⟨EPOLLIN, 5⟩ },
    handlerEnv := fun _ => { exEnv with doRes := fun _ => false } }

/-! ## Theorems -/

/-- C1: for each of the six defined `PollEvent` values `Control` makes exactly
one `epoll_ctl` on the operator's fd, with the operation, interest mask and
reference-count call of the table: the registrations call `inuse()` before
the system call, `PollR2RW` and `PollRW2R` touch no count, `PollDetach` calls
`unused()` after the system call whatever it answered; the returned error is
the one of the system call.  `EPOLLET` is the bit `0x80000000`. -/
theorem C1_Control_table (ctl : Int → Int → Int → epollevent → Errno) (p : defaultPoll)
    (h : Heap) (operator : Nat) :
    (EPOLLET = 0x80000000 ∧ EPOLLET ||| EPOLLOUT ||| EPOLLRDHUP ||| EPOLLERR < 2 ^ 32) ∧
    ((Control ctl p h operator PollReadable).trace =
        [.inuse operator,
         .epollCtl p.fd EPOLL_CTL_ADD (h operator).FD
           ⟨EPOLLIN ||| EPOLLRDHUP ||| EPOLLERR, operator⟩] ∧
      (Control ctl p h operator PollReadable).err =
        EpollCtl (ctl p.fd EPOLL_CTL_ADD (h operator).FD
           ⟨EPOLLIN ||| EPOLLRDHUP ||| EPOLLERR, operator⟩) ∧
      (Control ctl p h operator PollReadable).heap = h.set operator (h operator).inuse) ∧
    ((Control ctl p h operator PollModReadable).trace =
        [.inuse operator,
         .epollCtl p.fd EPOLL_CTL_MOD (h operator).FD
           ⟨EPOLLIN ||| EPOLLRDHUP ||| EPOLLERR, operator⟩] ∧
      (Control ctl p h operator PollModReadable).err =
        EpollCtl (ctl p.fd EPOLL_CTL_MOD (h operator).FD
           ⟨EPOLLIN ||| EPOLLRDHUP ||| EPOLLERR, operator⟩) ∧
      (Control ctl p h operator PollModReadable).heap = h.set operator (h operator).inuse) ∧
    ((Control ctl p h operator PollWritable).trace =
        [.inuse operator,
         .epollCtl p.fd EPOLL_CTL_ADD (h operator).FD
           ⟨EPOLLET ||| EPOLLOUT ||| EPOLLRDHUP ||| EPOLLERR, operator⟩] ∧
      (Control ctl p h operator PollWritable).err =
        EpollCtl (ctl p.fd EPOLL_CTL_ADD (h operator).FD
           ⟨EPOLLET ||| EPOLLOUT ||| EPOLLRDHUP ||| EPOLLERR, operator⟩) ∧
      (Control ctl p h operator PollWritable).heap = h.set operator (h operator).inuse) ∧
    ((Control ctl p h operator PollR2RW).trace =
        [.epollCtl p.fd EPOLL_CTL_MOD (h operator).FD
           ⟨EPOLLIN ||| EPOLLOUT ||| EPOLLRDHUP ||| EPOLLERR, operator⟩] ∧
      (Control ctl p h operator PollR2RW).err =
        EpollCtl (ctl p.fd EPOLL_CTL_MOD (h operator).FD
           ⟨EPOLLIN ||| EPOLLOUT ||| EPOLLRDHUP ||| EPOLLERR, operator⟩) ∧
      (Control ctl p h operator PollR2RW).heap = h) ∧
    ((Control ctl p h operator PollRW2R).trace =
        [.epollCtl p.fd EPOLL_CTL_MOD (h operator).FD
           ⟨EPOLLIN ||| EPOLLRDHUP ||| EPOLLERR, operator⟩] ∧
      (Control ctl p h operator PollRW2R).err =
        EpollCtl (ctl p.fd EPOLL_CTL_MOD (h operator).FD
           ⟨EPOLLIN ||| EPOLLRDHUP ||| EPOLLERR, operator⟩) ∧
      (Control ctl p h operator PollRW2R).heap = h) ∧
    ((Control ctl p h operator PollDetach).trace =
        [.epollCtl p.fd EPOLL_CTL_DEL (h operator).FD
           ⟨EPOLLIN ||| EPOLLOUT ||| EPOLLRDHUP ||| EPOLLERR, operator⟩,
         .unused operator] ∧
      (Control ctl p h operator PollDetach).err =
        EpollCtl (ctl p.fd EPOLL_CTL_DEL (h operator).FD
           ⟨EPOLLIN ||| EPOLLOUT ||| EPOLLRDHUP ||| EPOLLERR, operator⟩) ∧
      (Control ctl p h operator PollDetach).heap = h.set operator (h operator).unused) := by
  have hfd : (h.set operator (h operator).inuse operator).FD = (h operator).FD := by
    simp [Heap.set, FDOperator.inuse]
  refine ⟨⟨by decide, by decide⟩, ?_, ?_, ?_, ?_, ?_, ?_⟩
  · simp [Control, PollReadable, hfd]
  · simp [Control, PollReadable, PollModReadable, hfd]
  · simp [Control, PollReadable, PollModReadable, PollDetach, PollWritable, hfd]
  · simp [Control, PollReadable, PollModReadable, PollDetach, PollWritable, PollR2RW]
  · simp [Control, PollReadable, PollModReadable, PollDetach, PollWritable, PollR2RW, PollRW2R]
  · simp [Control, PollReadable, PollModReadable, PollDetach]

/-- C10: on the connection path of `handler` (no `OnRead` / `OnWrite`, a
non-empty vector from `Inputs` / `Outputs`) the ack callback gets exactly the
byte count the vectored system call returned, and the operator is enqueued
for hangup exactly when the system call returned an error that is not
transient: for `readv` any error but `EAGAIN` and `EINTR`, for `sendmsg` any
error but `EAGAIN`.  With an `OnRead` / `OnWrite` callback the operator is
not enqueued, whatever the callback returns. -/
theorem C10_connection_path (env : HandlerEnv) (p : defaultPoll) (h : Heap) (i : Nat)
    (ev : epollevent) (buf : List Nat) (trigger : Nat) (hups : List Nat)
    (hwake : (h ev.data).FD ≠ (h p.wop).FD) (hdo : env.doRes i = true)
    (hhup : ev.events &&& (EPOLLHUP ||| EPOLLRDHUP) = 0)
    (herr : ev.events &&& EPOLLERR = 0) :
    (ev.events &&& EPOLLIN ≠ 0 →
      ((h ev.data).OnRead = none → env.inputsLen i ≠ 0 →
        (handleEvent env p h i ev buf trigger hups).trace =
            [.opDo ev.data true, .inputs ev.data, .readv (h ev.data).FD,
             .inputAck ev.data (env.readvRes i).1] ++
            (match (env.readvRes i).2 with
              | some e => if e ≠ EAGAIN ∧ e ≠ EINTR then [.log (h ev.data).FD e] else []
              | none => []) ++
            [.opDone ev.data] ∧
        ((handleEvent env p h i ev buf trigger hups).hups = hups ++ [ev.data] ↔
          ∃ e, (env.readvRes i).2 = some e ∧ e ≠ EAGAIN ∧ e ≠ EINTR) ∧
        ((handleEvent env p h i ev buf trigger hups).hups = hups ↔
          ((env.readvRes i).2 = none ∨ (env.readvRes i).2 = some EAGAIN ∨
            (env.readvRes i).2 = some EINTR))) ∧
      (∀ f, (h ev.data).OnRead = some f →
        (handleEvent env p h i ev buf trigger hups).trace =
            [.opDo ev.data true, .onRead ev.data f, .opDone ev.data] ∧
        (handleEvent env p h i ev buf trigger hups).hups = hups)) ∧
    (ev.events &&& EPOLLIN = 0 → ev.events &&& EPOLLOUT ≠ 0 →
      ((h ev.data).OnWrite = none → env.outputsLen i ≠ 0 →
        (handleEvent env p h i ev buf trigger hups).trace =
            [.opDo ev.data true, .outputs ev.data, .sendmsg (h ev.data).FD false,
             .outputAck ev.data (env.sendmsgRes i).1] ++
            (match (env.sendmsgRes i).2 with
              | some e => if e ≠ EAGAIN then [.log (h ev.data).FD e] else []
              | none => []) ++
            [.opDone ev.data] ∧
        ((handleEvent env p h i ev buf trigger hups).hups = hups ++ [ev.data] ↔
          ∃ e, (env.sendmsgRes i).2 = some e ∧ e ≠ EAGAIN) ∧
        ((handleEvent env p h i ev buf trigger hups).hups = hups ↔
          ((env.sendmsgRes i).2 = none ∨ (env.sendmsgRes i).2 = some EAGAIN))) ∧
      (∀ f, (h ev.data).OnWrite = some f →
        (handleEvent env p h i ev buf trigger hups).trace =
            [.opDo ev.data true, .onWrite ev.data f, .opDone ev.data] ∧
        (handleEvent env p h i ev buf trigger hups).hups = hups)) := by
  refine ⟨fun hin => ⟨fun hnil hlen => ?_, fun f hf => ?_⟩,
          fun hin hout => ⟨fun hnil hlen => ?_, fun f hf => ?_⟩⟩
  · rcases hres : (env.readvRes i).2 with _ | e
    · simp [handleEvent, hwake, hdo, hhup, herr, hin, hnil, hlen, hres]
    · by_cases hq : e ≠ EAGAIN ∧ e ≠ EINTR
      · simp [handleEvent, hwake, hdo, hhup, herr, hin, hnil, hlen, hres, hq]
      · have hq2 : e = EAGAIN ∨ e = EINTR := by
          by_contra hc
          exact hq ⟨fun h1 => hc (Or.inl h1), fun h2 => hc (Or.inr h2)⟩
        rcases hq2 with rfl | rfl <;>
          simp [handleEvent, hwake, hdo, hhup, herr, hin, hnil, hlen, hres, EAGAIN, EINTR]
  · simp [handleEvent, hwake, hdo, hhup, herr, hin, hf]
  · rcases hres : (env.sendmsgRes i).2 with _ | e
    · simp [handleEvent, hwake, hdo, hhup, herr, hin, hout, hnil, hlen, hres]
    · by_cases hq : e = EAGAIN
      · subst hq
        simp [handleEvent, hwake, hdo, hhup, herr, hin, hout, hnil, hlen, hres]
      · simp [handleEvent, hwake, hdo, hhup, herr, hin, hout, hnil, hlen, hres, hq]
  · simp [handleEvent, hwake, hdo, hhup, herr, hin, hout, hf]

/-- C10, at a concrete input: a readable event for the connection operator
at address 5 whose `readv` fails with `ECONNRESET` acknowledges the returned
count -1 and enqueues the operator. -/
theorem C10_connection_path_witness :
    (exHeap (⟨EPOLLIN, 5⟩ : epollevent).data).FD ≠ (exHeap exPoll.wop).FD ∧
    exEnv.doRes 0 = true ∧
    (⟨EPOLLIN, 5⟩ : epollevent).events &&& (EPOLLHUP ||| EPOLLRDHUP) = 0 ∧
    (⟨EPOLLIN, 5⟩ : epollevent).events &&& EPOLLERR = 0 ∧
    ((handleEvent exEnv exPoll exHeap 0 ⟨EPOLLIN, 5⟩ exPoll.buf 1 []).hups = [] ++ [5] ↔
      ∃ e, (exEnv.readvRes 0).2 = some e ∧ e ≠ EAGAIN ∧ e ≠ EINTR) :=
  ⟨by decide, rfl, by decide, by decide,
   ((C10_connection_path exEnv exPoll exHeap 0 ⟨EPOLLIN, 5⟩ exPoll.buf 1 []
      (by decide) rfl (by decide) (by decide)).1 (by decide)).1 rfl (by decide) |>.2.1⟩

/-! ### The dispatch loop -/

theorem readInto_full (buf bytes : List Nat) (hb : buf.length = 8) (hp : bytes.length = 8) :
    readInto buf bytes = bytes := by
  simp [readInto, hb, hp, List.take_of_length_le, List.drop_of_length_le]

theorem handleEvent_wake (env : HandlerEnv) (p : defaultPoll) (h : Heap) (i : Nat)
    (ev : epollevent) (buf : List Nat) (trigger : Nat) (hups : List Nat)
    (hw : (h ev.data).FD = (h p.wop).FD) :
    handleEvent env p h i ev buf trigger hups =
      if (readInto buf (env.wakeRead i)).headD 0 > 0 then
        { closed := true, buf := readInto buf (env.wakeRead i), trigger := 0, hups := hups,
          trace := [.sysRead (h p.wop).FD, .storeTrigger,
                    .sysClose (h p.wop).FD, .sysClose p.fd] }
      else
        { closed := false, buf := readInto buf (env.wakeRead i), trigger := 0, hups := hups,
          trace := [.sysRead (h p.wop).FD, .storeTrigger] } := by
  simp [handleEvent, hw]

theorem handleEvent_other (env : HandlerEnv) (p : defaultPoll) (h : Heap) (i : Nat)
    (ev : epollevent) (buf : List Nat) (trigger : Nat) (hups : List Nat)
    (hw : (h ev.data).FD ≠ (h p.wop).FD) :
    (handleEvent env p h i ev buf trigger hups).closed = false ∧
    (handleEvent env p h i ev buf trigger hups).buf = buf ∧
    (handleEvent env p h i ev buf trigger hups).trigger = trigger := by
  unfold handleEvent
  simp only [hw, if_false]
  repeat' split
  all_goals simp

theorem handlerLoop_cons (env : HandlerEnv) (p : defaultPoll) (h : Heap) (i : Nat)
    (e : epollevent) (rest : List epollevent) (buf : List Nat) (trigger : Nat)
    (hups : List Nat) (trace : List Effect) :
    handlerLoop env p h i (e :: rest) buf trigger hups trace =
      if (handleEvent env p h i e buf trigger hups).closed then
        { closed := true, buf := (handleEvent env p h i e buf trigger hups).buf,
          trigger := (handleEvent env p h i e buf trigger hups).trigger,
          hups := (handleEvent env p h i e buf trigger hups).hups,
          trace := trace ++ (handleEvent env p h i e buf trigger hups).trace }
      else
        handlerLoop env p h (i + 1) rest (handleEvent env p h i e buf trigger hups).buf
          (handleEvent env p h i e buf trigger hups).trigger
          (handleEvent env p h i e buf trigger hups).hups
          (trace ++ (handleEvent env p h i e buf trigger hups).trace) := rfl

theorem handlerLoop_append (env : HandlerEnv) (p : defaultPoll) (h : Heap) :
    ∀ (pre : List epollevent) (i : Nat) (rest : List epollevent) (buf : List Nat)
      (trigger : Nat) (hups : List Nat) (trace : List Effect),
      handlerLoop env p h i (pre ++ rest) buf trigger hups trace =
        if (handlerLoop env p h i pre buf trigger hups trace).closed then
          handlerLoop env p h i pre buf trigger hups trace
        else
          handlerLoop env p h (i + pre.length) rest
            (handlerLoop env p h i pre buf trigger hups trace).buf
            (handlerLoop env p h i pre buf trigger hups trace).trigger
            (handlerLoop env p h i pre buf trigger hups trace).hups
            (handlerLoop env p h i pre buf trigger hups trace).trace := by
  intro pre
  induction pre with
  | nil => intro i rest buf trigger hups trace; simp [handlerLoop]
  | cons e pre ih =>
    intro i rest buf trigger hups trace
    rw [List.cons_append, handlerLoop_cons, handlerLoop_cons]
    by_cases hc : (handleEvent env p h i e buf trigger hups).closed = true
    · simp [hc]
    · have hc1 : (handleEvent env p h i e buf trigger hups).closed = false := by
        simpa using hc
      have hlen : i + 1 + pre.length = i + (e :: pre).length := by simp; omega
      simp only [hc1, Bool.false_eq_true, if_false]
      rw [ih, hlen]

/-- Events that are not for the wake descriptor never end the loop and leave
`p.buf` and `p.trigger` alone. -/
theorem handlerLoop_other (env : HandlerEnv) (p : defaultPoll) (h : Heap) :
    ∀ (pre : List epollevent) (i : Nat) (buf : List Nat)
      (trigger : Nat) (hups : List Nat) (trace : List Effect),
      (∀ e ∈ pre, (h e.data).FD ≠ (h p.wop).FD) →
      (handlerLoop env p h i pre buf trigger hups trace).closed = false ∧
      (handlerLoop env p h i pre buf trigger hups trace).buf = buf ∧
      (handlerLoop env p h i pre buf trigger hups trace).trigger = trigger := by
  intro pre
  induction pre with
  | nil => intro i buf trigger hups trace _; simp [handlerLoop]
  | cons e pre ih =>
    intro i buf trigger hups trace hpre
    have he := handleEvent_other env p h i e buf trigger hups (hpre e (by simp))
    rw [handlerLoop_cons]
    simp only [he.1]
    have := ih (i + 1) (handleEvent env p h i e buf trigger hups).buf
      (handleEvent env p h i e buf trigger hups).trigger
      (handleEvent env p h i e buf trigger hups).hups
      (trace ++ (handleEvent env p h i e buf trigger hups).trace)
      (fun e1 h1 => hpre e1 (by simp [h1]))
    simp only [Bool.false_eq_true, if_false]
    rw [he.2.1, he.2.2] at this
    rw [he.2.1, he.2.2]
    exact this

/-- The loop never shortens `p.buf`. -/
theorem handleEvent_buf_length (env : HandlerEnv) (p : defaultPoll) (h : Heap) (i : Nat)
    (ev : epollevent) (buf : List Nat) (trigger : Nat) (hups : List Nat)
    (hl : ∀ j, (env.wakeRead j).length = 8) (hb : buf.length = 8) :
    (handleEvent env p h i ev buf trigger hups).buf.length = 8 := by
  by_cases hw : (h ev.data).FD = (h p.wop).FD
  · rw [handleEvent_wake env p h i ev buf trigger hups hw, readInto_full buf _ hb (hl i)]
    split <;> simp [hl]
  · rw [(handleEvent_other env p h i ev buf trigger hups hw).2.1]; exact hb

/-- A batch in which every read of the wake descriptor delivers the payload of
`Trigger` does not end the loop. -/
theorem handlerLoop_trigger (env : HandlerEnv) (p : defaultPoll) (h : Heap) :
    ∀ (events : List epollevent) (i : Nat) (buf : List Nat)
      (trigger : Nat) (hups : List Nat) (trace : List Effect),
      buf.length = 8 →
      (∀ j e, events[j]? = some e → (h e.data).FD = (h p.wop).FD →
        env.wakeRead (i + j) = triggerPayload) →
      (handlerLoop env p h i events buf trigger hups trace).closed = false := by
  intro events
  induction events with
  | nil => intro i buf trigger hups trace _ _; simp [handlerLoop]
  | cons e rest ih =>
    intro i buf trigger hups trace hb hpay
    have hstep : (handleEvent env p h i e buf trigger hups).closed = false ∧
        (handleEvent env p h i e buf trigger hups).buf.length = 8 := by
      by_cases hw : (h e.data).FD = (h p.wop).FD
      · have h0 := hpay 0 e (by simp) hw
        simp only [Nat.add_zero] at h0
        rw [handleEvent_wake env p h i e buf trigger hups hw, h0,
          readInto_full buf _ hb (by simp [triggerPayload])]
        simp [triggerPayload]
      · have := handleEvent_other env p h i e buf trigger hups hw
        exact ⟨this.1, by rw [this.2.1]; exact hb⟩
    rw [handlerLoop_cons]
    simp only [hstep.1, Bool.false_eq_true, if_false]
    apply ih _ _ _ _ _ hstep.2
    intro j e1 hj hw
    have := hpay (j + 1) e1 (by simpa using hj) hw
    rw [← this]; congr 1; omega

theorem resize_fields (caps : Nat) (p : defaultPoll) (n : Int) :
    (resize caps p n).fd = p.fd ∧ (resize caps p n).wop = p.wop ∧
    (resize caps p n).buf = p.buf ∧ (resize caps p n).trigger = p.trigger := by
  unfold resize
  split <;> simp [defaultPoll.reset]

/-- The loop of `handler` on a batch whose first event for the wake descriptor
reads the payload of `Close`. -/
theorem handlerLoop_close (env : HandlerEnv) (p : defaultPoll) (h : Heap)
    (pre : List epollevent) (ev : epollevent) (post : List epollevent)
    (buf : List Nat) (trigger : Nat)
    (hbuf : buf.length = 8)
    (hpre : ∀ e ∈ pre, (h e.data).FD ≠ (h p.wop).FD)
    (hev : (h ev.data).FD = (h p.wop).FD)
    (hpay : env.wakeRead pre.length = closePayload) :
    (handlerLoop env p h 0 (pre ++ ev :: post) buf trigger [] []).closed = true ∧
    (handlerLoop env p h 0 (pre ++ ev :: post) buf trigger [] []).trace =
      (handlerLoop env p h 0 pre buf trigger [] []).trace ++
        [.sysRead (h p.wop).FD, .storeTrigger, .sysClose (h p.wop).FD, .sysClose p.fd] ∧
    (handlerLoop env p h 0 (pre ++ ev :: post) buf trigger [] []).hups =
      (handlerLoop env p h 0 pre buf trigger [] []).hups ∧
    (handlerLoop env p h 0 (pre ++ ev :: post) buf trigger [] []).trigger = 0 ∧
    (handlerLoop env p h 0 (pre ++ ev :: post) buf trigger [] []).buf = closePayload := by
  have hp := handlerLoop_other env p h pre 0 buf trigger [] [] hpre
  rw [handlerLoop_append, hp.1]
  simp only [Bool.false_eq_true, if_false, Nat.zero_add]
  rw [handlerLoop_cons, handleEvent_wake _ _ _ _ _ _ _ _ hev, hpay, hp.2.1,
    readInto_full buf _ hbuf (by simp [closePayload])]
  simp [closePayload]

/-- One turn of the loop of `Wait` whose dispatch returns `closed = true`
makes `Wait` return `nil`. -/
theorem waitLoop_closed (caps : Nat) (env : WaitEnv) (fuel k : Nat) (p : defaultPoll) (h : Heap)
    (msec n : Int) (trace : List Effect)
    (herrno : (env.epollWait k (resize caps p n).events.length msec).errno = 0)
    (hr0 : 0 < (env.epollWait k (resize caps p n).events.length msec).r0)
    (hcl : (handler (env.handlerEnv k)
        { resize caps p n with
          events := storeEvents (resize caps p n).events
            (env.epollWait k (resize caps p n).events.length msec).events }
        h ((storeEvents (resize caps p n).events
            (env.epollWait k (resize caps p n).events.length msec).events).take
            (env.epollWait k (resize caps p n).events.length msec).r0.toNat)).closed = true) :
    (waitLoop caps env (fuel + 1) k p h msec n trace).ret = some none := by
  have hnot : ¬ (env.epollWait k (resize caps p n).events.length msec).r0 ≤ 0 := by omega
  rw [waitLoop]
  simp only [EpollWait, herrno, if_true, ne_eq, not_true_eq_false, false_and, if_false, hnot]
  rw [if_pos hcl]

/-- A batch whose first wake event reads the payload of `Close` makes `handler`
return `true`. -/
theorem handler_close (env : HandlerEnv) (p : defaultPoll) (h : Heap)
    (pre : List epollevent) (ev : epollevent) (post : List epollevent)
    (hbuf : p.buf.length = 8)
    (hpre : ∀ e ∈ pre, (h e.data).FD ≠ (h p.wop).FD)
    (hev : (h ev.data).FD = (h p.wop).FD)
    (hpay : env.wakeRead pre.length = closePayload) :
    (handler env p h (pre ++ ev :: post)).closed = true ∧
    (handler env p h (pre ++ ev :: post)).trace =
      (handlerLoop env p h 0 pre p.buf p.trigger [] []).trace ++
        [.sysRead (h p.wop).FD, .storeTrigger, .sysClose (h p.wop).FD, .sysClose p.fd] ∧
    (handler env p h (pre ++ ev :: post)).poll.trigger = 0 := by
  have hl := handlerLoop_close env p h pre ev post p.buf p.trigger hbuf hpre hev hpay
  simp only [handler, hl.1, if_true]
  exact ⟨trivial, hl.2.1, hl.2.2.2.1⟩

/-- C3: for an event whose operator has the wake descriptor, `handler` reads
the 8-byte payload into `p.buf`, stores 0 in the trigger flag and returns
`closed = true` exactly when byte 0 of the payload is not zero, otherwise it
goes on with the next event.  So a batch whose wake event reads the payload
of `Close` makes `handler` return `true` right after that one read, and makes
`Wait` return `nil`; a batch whose wake events read the payload of `Trigger`
never makes `handler` return `true`. -/
theorem C3_wake_event (wenv : WaitEnv) (k : Nat) (p : defaultPoll) (h : Heap)
    (hbuf : p.buf.length = 8) :
    (∀ (i : Nat) (ev : epollevent) (buf : List Nat) (trigger : Nat) (hups : List Nat),
      (h ev.data).FD = (h p.wop).FD → buf.length = 8 →
      ((wenv.handlerEnv k).wakeRead i).length = 8 →
      (handleEvent (wenv.handlerEnv k) p h i ev buf trigger hups).buf
          = (wenv.handlerEnv k).wakeRead i ∧
      (handleEvent (wenv.handlerEnv k) p h i ev buf trigger hups).trigger = 0 ∧
      (handleEvent (wenv.handlerEnv k) p h i ev buf trigger hups).hups = hups ∧
      (handleEvent (wenv.handlerEnv k) p h i ev buf trigger hups).trace.take 2
          = [.sysRead (h p.wop).FD, .storeTrigger] ∧
      ((handleEvent (wenv.handlerEnv k) p h i ev buf trigger hups).closed = true ↔
        ((wenv.handlerEnv k).wakeRead i).headD 0 ≠ 0)) ∧
    (∀ (pre : List epollevent) (ev : epollevent) (post : List epollevent),
      (∀ e ∈ pre, (h e.data).FD ≠ (h p.wop).FD) → (h ev.data).FD = (h p.wop).FD →
      (wenv.handlerEnv k).wakeRead pre.length = closePayload →
      (handler (wenv.handlerEnv k) p h (pre ++ ev :: post)).closed = true ∧
      (handler (wenv.handlerEnv k) p h (pre ++ ev :: post)).trace =
        (handlerLoop (wenv.handlerEnv k) p h 0 pre p.buf p.trigger [] []).trace ++
          [.sysRead (h p.wop).FD, .storeTrigger, .sysClose (h p.wop).FD, .sysClose p.fd] ∧
      (handler (wenv.handlerEnv k) p h (pre ++ ev :: post)).poll.trigger = 0) ∧
    (∀ (caps fuel : Nat) (msec n : Int) (trace : List Effect)
      (pre : List epollevent) (ev : epollevent) (post : List epollevent),
      (wenv.epollWait k (resize caps p n).events.length msec).errno = 0 →
      0 < (wenv.epollWait k (resize caps p n).events.length msec).r0 →
      (storeEvents (resize caps p n).events
          (wenv.epollWait k (resize caps p n).events.length msec).events).take
          (wenv.epollWait k (resize caps p n).events.length msec).r0.toNat
        = pre ++ ev :: post →
      (∀ e ∈ pre, (h e.data).FD ≠ (h p.wop).FD) → (h ev.data).FD = (h p.wop).FD →
      (wenv.handlerEnv k).wakeRead pre.length = closePayload →
      (waitLoop caps wenv (fuel + 1) k p h msec n trace).ret = some none) ∧
    (∀ (events : List epollevent),
      (∀ j e, events[j]? = some e → (h e.data).FD = (h p.wop).FD →
        (wenv.handlerEnv k).wakeRead j = triggerPayload) →
      (handler (wenv.handlerEnv k) p h events).closed = false) := by
  refine ⟨?_, ?_, ?_, ?_⟩
  · intro i ev buf trigger hups hw hb hl
    rw [handleEvent_wake _ _ _ _ _ _ _ _ hw, readInto_full buf _ hb hl]
    split
    · rename_i hpos
      simp only [List.take, true_and, ne_eq, and_self, true_iff]
      omega
    · rename_i hpos
      simp only [List.take, true_and, ne_eq, and_self, Bool.false_eq_true, false_iff,
        not_not]
      omega
  · intro pre ev post hpre hev hpay
    exact handler_close (wenv.handlerEnv k) p h pre ev post hbuf hpre hev hpay
  · intro caps fuel msec n trace pre ev post herrno hr0 hbatch hpre hev hpay
    have hf := resize_fields caps p n
    apply waitLoop_closed caps wenv fuel k p h msec n trace herrno hr0
    rw [hbatch]
    refine (handler_close (wenv.handlerEnv k) _ h pre ev post ?_ ?_ ?_ hpay).1
    · show (resize caps p n).buf.length = 8
      rw [hf.2.2.1]; exact hbuf
    · show ∀ e ∈ pre, (h e.data).FD ≠ (h (resize caps p n).wop).FD
      rw [hf.2.1]; exact hpre
    · show (h ev.data).FD = (h (resize caps p n).wop).FD
      rw [hf.2.1]; exact hev
  · intro events hpay
    have hl := handlerLoop_trigger (wenv.handlerEnv k) p h events 0 p.buf p.trigger [] [] hbuf
      (by intro j e hj hw; simpa using hpay j e hj hw)
    simp only [handler, hl, Bool.false_eq_true, if_false]
    split <;> rfl

set_option maxRecDepth 100000 in
/-- C3, at a concrete input: the first `epoll_wait` reports a readable
connection and the wake operator, the wake read delivers the payload of
`Close`; `Wait` returns `nil` in its first turn. -/
theorem C3_wake_event_witness :
    (exPoll.reset 128 32).buf.length = 8 ∧
    (defaultPoll.Wait 32 exWaitEnv 1 exPoll exHeap).ret = some none :=
  ⟨by decide,
   (C3_wake_event exWaitEnv 0 (exPoll.reset 128 32) exHeap (by decide)).2.2.1
     32 0 (-1) 0 [] [⟨EPOLLIN, 5⟩] ⟨EPOLLIN, 0⟩ [] rfl (by decide) rfl
     (by decide) (by decide) rfl⟩

/-! ### Trigger -/

theorem handleEvent_trigger (env : HandlerEnv) (p : defaultPoll) (h : Heap) (i : Nat)
    (ev : epollevent) (buf : List Nat) (trigger : Nat) (hups : List Nat) :
    ((h ev.data).FD = (h p.wop).FD →
      (handleEvent env p h i ev buf trigger hups).trigger = 0) ∧
    ((handleEvent env p h i ev buf trigger hups).trigger = trigger ∨
      (handleEvent env p h i ev buf trigger hups).trigger = 0) := by
  by_cases hw : (h ev.data).FD = (h p.wop).FD
  · have : (handleEvent env p h i ev buf trigger hups).trigger = 0 := by
      rw [handleEvent_wake _ _ _ _ _ _ _ _ hw]; split <;> rfl
    exact ⟨fun _ => this, Or.inr this⟩
  · exact ⟨fun hc => absurd hc hw, Or.inl (handleEvent_other _ _ _ _ _ _ _ _ hw).2.2⟩

theorem handlerLoop_trigger_zero (env : HandlerEnv) (p : defaultPoll) (h : Heap) :
    ∀ (events : List epollevent) (i : Nat) (buf : List Nat) (hups : List Nat)
      (trace : List Effect),
      (handlerLoop env p h i events buf 0 hups trace).trigger = 0 := by
  intro events
  induction events with
  | nil => intro i buf hups trace; rfl
  | cons e rest ih =>
    intro i buf hups trace
    have ht : (handleEvent env p h i e buf 0 hups).trigger = 0 := by
      rcases (handleEvent_trigger env p h i e buf 0 hups).2 with h1 | h1 <;> exact h1
    rw [handlerLoop_cons]
    split
    · exact ht
    · rw [ht]; exact ih _ _ _ _

/-- A batch with an event for the wake descriptor leaves the trigger flag 0. -/
theorem handlerLoop_wake_trigger (env : HandlerEnv) (p : defaultPoll) (h : Heap) :
    ∀ (events : List epollevent) (i : Nat) (buf : List Nat) (trigger : Nat)
      (hups : List Nat) (trace : List Effect),
      (∃ e ∈ events, (h e.data).FD = (h p.wop).FD) →
      (handlerLoop env p h i events buf trigger hups trace).trigger = 0 := by
  intro events
  induction events with
  | nil => intro i buf trigger hups trace hex; simp at hex
  | cons e rest ih =>
    intro i buf trigger hups trace hex
    rw [handlerLoop_cons]
    by_cases hw : (h e.data).FD = (h p.wop).FD
    · have ht := (handleEvent_trigger env p h i e buf trigger hups).1 hw
      split
      · exact ht
      · rw [ht]; exact handlerLoop_trigger_zero env p h _ _ _ _ _
    · have ho := handleEvent_other env p h i e buf trigger hups hw
      simp only [ho.1, Bool.false_eq_true, if_false]
      apply ih
      obtain ⟨e1, he1, hw1⟩ := hex
      rcases List.mem_cons.mp he1 with rfl | hmem
      · exact absurd hw1 hw
      · exact ⟨e1, hmem, hw1⟩

theorem handler_trigger (env : HandlerEnv) (p : defaultPoll) (h : Heap)
    (events : List epollevent) :
    (handler env p h events).poll.trigger =
      (handlerLoop env p h 0 events p.buf p.trigger [] []).trigger := by
  unfold handler
  simp only
  split
  · rfl
  · split <;> rfl

theorem Trigger_wop (w : Option Errno) (p : defaultPoll) (h : Heap) :
    (defaultPoll.Trigger w p h).2.1.wop = p.wop := by
  unfold defaultPoll.Trigger
  simp only
  split <;> rfl

/-- From counter 0, `N` calls of `Trigger` with `1 ≤ N < 2^32` write once. -/
theorem triggerN_from_zero (w : Nat → Option Errno) (h : Heap) (p : defaultPoll)
    (h0 : p.trigger = 0) :
    ∀ N, 1 ≤ N → N < 2 ^ 32 →
      (triggerN w h N p).2 = [.sysWrite (h p.wop).FD triggerPayload] ∧
      (triggerN w h N p).1.trigger = N ∧ (triggerN w h N p).1.wop = p.wop := by
  intro N
  induction N with
  | zero => intro h1 _; omega
  | succ N ih =>
    intro _ hlt
    by_cases hN : N = 0
    · subst hN
      simp [triggerN, defaultPoll.Trigger, h0]
    · obtain ⟨htr, htg, hwop⟩ := ih (by omega) (by omega)
      have hmod : ((triggerN w h N p).1.trigger + 1) % 2 ^ 32 = N + 1 := by
        rw [htg]; exact Nat.mod_eq_of_lt hlt
      have hgt : N + 1 > 1 := by omega
      simp only [triggerN, defaultPoll.Trigger, hmod, hgt, if_true, htr, List.append_nil]
      exact ⟨trivial, trivial, hwop⟩

/-- C4, as stated, fails at the largest counter value: with the counter at
`2^32 - 1` the addition wraps to 0, which is not greater than 1, so `Trigger`
writes although the counter was not 0 before the call. -/
theorem C4_Trigger_counterexample :
    (defaultPoll.Trigger none { exPoll with trigger := 4294967295 } exHeap).2.2
        = [.sysWrite 3 triggerPayload] ∧
    (defaultPoll.Trigger none { exPoll with trigger := 4294967295 } exHeap).2.1.trigger = 0 ∧
    ¬ (∀ (w : Option Errno) (p : defaultPoll) (h : Heap), p.trigger < 2 ^ 32 →
        ((defaultPoll.Trigger w p h).2.1.trigger = p.trigger + 1 ∧
         ((defaultPoll.Trigger w p h).2.2 ≠ [] ↔ p.trigger = 0))) := by
  refine ⟨by decide, by decide, fun H => ?_⟩
  have h1 := (H none { exPoll with trigger := 4294967295 } exHeap (by decide)).1
  revert h1
  decide

/-- C4, amended: `Trigger` stores `(c + 1) mod 2^32` for the counter `c` and
writes the wake payload exactly when the stored value is at most 1, that is
when `c = 0` or `c = 2^32 - 1`; a call that does not write returns `nil`.
For every `c` below `2^32 - 1` the counter grows by one and the write happens
exactly on the transition from 0 to 1.  Hence `N` calls from counter 0 with
`1 ≤ N < 2^32` and no wake event consumed in between write exactly once, and
the counter is 0 after `handler` worked on a batch with a wake event. -/
theorem C4_Trigger_amended (w : Option Errno) (p : defaultPoll) (h : Heap)
    (ht : p.trigger < 2 ^ 32) :
    (defaultPoll.Trigger w p h).2.1.trigger = (p.trigger + 1) % 2 ^ 32 ∧
    (((defaultPoll.Trigger w p h).2.2 = [.sysWrite (h p.wop).FD triggerPayload] ∧
        (defaultPoll.Trigger w p h).1 = w) ∨
      ((defaultPoll.Trigger w p h).2.2 = [] ∧ (defaultPoll.Trigger w p h).1 = none)) ∧
    ((defaultPoll.Trigger w p h).2.2 ≠ [] ↔ (p.trigger = 0 ∨ p.trigger = 2 ^ 32 - 1)) ∧
    (p.trigger ≠ 2 ^ 32 - 1 →
      (defaultPoll.Trigger w p h).2.1.trigger = p.trigger + 1 ∧
      ((defaultPoll.Trigger w p h).2.2 ≠ [] ↔ p.trigger = 0)) ∧
    (∀ (ws : Nat → Option Errno) (N : Nat), p.trigger = 0 → 1 ≤ N → N < 2 ^ 32 →
      (triggerN ws h N p).2 = [.sysWrite (h p.wop).FD triggerPayload] ∧
      (triggerN ws h N p).1.trigger = N) ∧
    (∀ (env : HandlerEnv) (events : List epollevent),
      (∃ e ∈ events, (h e.data).FD = (h p.wop).FD) →
      (handler env p h events).poll.trigger = 0) := by
  have hcases : p.trigger = 0 ∨ p.trigger = 2 ^ 32 - 1 ∨
      (0 < p.trigger ∧ p.trigger < 2 ^ 32 - 1) := by omega
  refine ⟨?_, ?_, ?_, ?_, ?_, ?_⟩
  · unfold defaultPoll.Trigger; simp only; split <;> rfl
  · unfold defaultPoll.Trigger; simp only; split
    · exact Or.inr ⟨rfl, rfl⟩
    · exact Or.inl ⟨rfl, rfl⟩
  · rcases hcases with h0 | h1 | ⟨h2, h3⟩
    · simp [defaultPoll.Trigger, h0]
    · simp [defaultPoll.Trigger, h1]
    · have hmod : (p.trigger + 1) % 2 ^ 32 = p.trigger + 1 := Nat.mod_eq_of_lt (by omega)
      have hgt : p.trigger + 1 > 1 := by omega
      simp only [defaultPoll.Trigger, hmod, hgt, if_true, ne_eq, not_true_eq_false, false_iff]
      omega
  · intro hne
    have hmod : (p.trigger + 1) % 2 ^ 32 = p.trigger + 1 := Nat.mod_eq_of_lt (by omega)
    refine ⟨?_, ?_⟩
    · unfold defaultPoll.Trigger; simp only [hmod]; split <;> rfl
    · by_cases h0 : p.trigger = 0
      · simp [defaultPoll.Trigger, h0]
      · have hgt : p.trigger + 1 > 1 := by omega
        simp only [defaultPoll.Trigger, hmod, hgt, if_true, ne_eq, not_true_eq_false,
          false_iff]
        exact h0
  · intro ws N h0 h1 hlt
    exact ⟨(triggerN_from_zero ws h p h0 N h1 hlt).1, (triggerN_from_zero ws h p h0 N h1 hlt).2.1⟩
  · intro env events hex
    rw [handler_trigger]
    exact handlerLoop_wake_trigger env p h events 0 p.buf p.trigger [] [] hex

/-- C4, amended, at a concrete input: three calls of `Trigger` from counter 0
write once and leave the counter at 3. -/
theorem C4_Trigger_amended_witness :
    ({ exPoll with trigger := 0 } : defaultPoll).trigger < 2 ^ 32 ∧
    (triggerN (fun _ => none) exHeap 3 { exPoll with trigger := 0 }).2
        = [.sysWrite 3 triggerPayload] ∧
    (triggerN (fun _ => none) exHeap 3 { exPoll with trigger := 0 }).1.trigger = 3 :=
  ⟨by decide,
   (C4_Trigger_amended none { exPoll with trigger := 0 } exHeap (by decide)).2.2.2.2.1
     (fun _ => none) 3 rfl (by decide) (by decide)⟩

/-! ### Hangups -/

theorem Control_detach (ctl : Int → Int → Int → epollevent → Errno) (p : defaultPoll)
    (h : Heap) (a : Nat) :
    (Control ctl p h a PollDetach).trace = detachCalls p h a ∧
    (∀ b, ((Control ctl p h a PollDetach).heap b).FD = (h b).FD ∧
          ((Control ctl p h a PollDetach).heap b).OnHup = (h b).OnHup) := by
  refine ⟨by simp [Control, PollReadable, PollModReadable, PollDetach, detachCalls], ?_⟩
  intro b
  have hheap : (Control ctl p h a PollDetach).heap = h.set a (h a).unused := by
    simp [Control, PollReadable, PollModReadable, PollDetach]
  rw [hheap]
  by_cases hb : b = a
  · subst hb; simp [Heap.set, FDOperator.unused]
  · simp [Heap.set, hb]

theorem detachLoop_spec (env : HandlerEnv) (p : defaultPoll) (h : Heap) :
    ∀ (hups : List Nat) (j : Nat) (h1 : Heap) (onhups : List Callback) (trace : List Effect),
      (∀ b, (h1 b).FD = (h b).FD ∧ (h1 b).OnHup = (h b).OnHup) →
      (detachLoop env p j hups h1 onhups trace).trace =
        trace ++ hups.flatMap (detachCalls p h) ∧
      (detachLoop env p j hups h1 onhups trace).onhups =
        onhups ++ hups.map (fun a => (h a).OnHup) := by
  intro hups
  induction hups with
  | nil => intro j h1 onhups trace _; simp [detachLoop]
  | cons a rest ih =>
    intro j h1 onhups trace hsame
    have hc := Control_detach (env.epollCtl j) p h1 a
    have hnext : ∀ b, ((Control (env.epollCtl j) p h1 a PollDetach).heap b).FD = (h b).FD ∧
        ((Control (env.epollCtl j) p h1 a PollDetach).heap b).OnHup = (h b).OnHup := by
      intro b
      exact ⟨(hc.2 b).1.trans (hsame b).1, (hc.2 b).2.trans (hsame b).2⟩
    have hcalls : detachCalls p h1 a = detachCalls p h a := by
      simp [detachCalls, (hsame a).1]
    have := ih (j + 1) (Control (env.epollCtl j) p h1 a PollDetach).heap
      (onhups ++ [(h1 a).OnHup]) (trace ++ (Control (env.epollCtl j) p h1 a PollDetach).trace)
      hnext
    simp only [detachLoop]
    rw [this.1, this.2, hc.1, hcalls, (hsame a).2]
    simp [List.flatMap_cons]

/-- C2, as stated, fails on a batch that holds a hangup and then the wake
event of `Close`: the operator at address 2 (which has an `OnHup` callback) is
enqueued, `handler` returns `true` at the wake event, and neither an
`epoll_ctl` for the operator nor the task calling `OnHup` appears among the
calls made. -/
theorem C2_hangups_counterexample :
    (handler exEnv exPoll exHeap [⟨EPOLLHUP, 2⟩, ⟨EPOLLIN, 0⟩]).closed = true ∧
    (handler exEnv exPoll exHeap [⟨EPOLLHUP, 2⟩, ⟨EPOLLIN, 0⟩]).hups = [2] ∧
    (exHeap 2).OnHup = some 20 ∧
    (handler exEnv exPoll exHeap [⟨EPOLLHUP, 2⟩, ⟨EPOLLIN, 0⟩]).trace =
      [.opDo 2 true, .opDone 2, .sysRead 3, .storeTrigger, .sysClose 3, .sysClose 4] := by
  decide

/-- C2, amended: for every batch on which `handler` returns `closed = false`,
every operator enqueued for hangup while the batch was processed receives
`Control(PollDetach)` (the `epoll_ctl` with `EPOLL_CTL_DEL`, then `unused()`),
in the order of enqueueing, after the last event of the batch, and then one
task is spawned that calls the `OnHup` callbacks of those operators that have
one, in the same order.  With no operator enqueued nothing is added. -/
theorem C2_hangups_amended (env : HandlerEnv) (p : defaultPoll) (h : Heap)
    (events : List epollevent) (hc : (handler env p h events).closed = false) :
    (handler env p h events).hups =
      (handlerLoop env p h 0 events p.buf p.trigger [] []).hups ∧
    (handler env p h events).trace =
      (handlerLoop env p h 0 events p.buf p.trigger [] []).trace ++
        (if (handler env p h events).hups = [] then []
         else (handler env p h events).hups.flatMap (detachCalls p h) ++
              [.spawn ((handler env p h events).hups.filterMap (fun a => (h a).OnHup))]) := by
  have hl : (handlerLoop env p h 0 events p.buf p.trigger [] []).closed = false := by
    by_contra hne
    have hcl : (handlerLoop env p h 0 events p.buf p.trigger [] []).closed = true := by
      simpa using hne
    simp [handler, hcl] at hc
  unfold handler
  simp only [hl, Bool.false_eq_true, if_false]
  by_cases hh : (handlerLoop env p h 0 events p.buf p.trigger [] []).hups = []
  · simp [hh]
  · have hpos : (handlerLoop env p h 0 events p.buf p.trigger [] []).hups.length > 0 :=
      List.length_pos.mpr hh
    simp only [hpos, if_true, hh, if_false, true_and]
    have hd := detachLoop_spec env
      { p with buf := (handlerLoop env p h 0 events p.buf p.trigger [] []).buf,
               trigger := (handlerLoop env p h 0 events p.buf p.trigger [] []).trigger } h
      (handlerLoop env p h 0 events p.buf p.trigger [] []).hups 0 h [] []
      (fun b => ⟨rfl, rfl⟩)
    simp only [detaches, hd.1, hd.2, hupTask, List.nil_append, List.filterMap_map]
    rfl

/-- C2, amended, at a concrete input: a batch with a hangup of the operator
at address 2 and a readable event of the operator at address 7. -/
theorem C2_hangups_amended_witness :
    (handler exEnv exPoll exHeap [⟨EPOLLHUP, 2⟩, ⟨EPOLLIN, 7⟩]).closed = false ∧
    (handler exEnv exPoll exHeap [⟨EPOLLHUP, 2⟩, ⟨EPOLLIN, 7⟩]).hups = [2] ∧
    (handler exEnv exPoll exHeap [⟨EPOLLHUP, 2⟩, ⟨EPOLLIN, 7⟩]).trace =
      (handlerLoop exEnv exPoll exHeap 0 [⟨EPOLLHUP, 2⟩, ⟨EPOLLIN, 7⟩]
          exPoll.buf exPoll.trigger [] []).trace ++
        (if (handler exEnv exPoll exHeap [⟨EPOLLHUP, 2⟩, ⟨EPOLLIN, 7⟩]).hups = [] then []
         else (handler exEnv exPoll exHeap [⟨EPOLLHUP, 2⟩, ⟨EPOLLIN, 7⟩]).hups.flatMap
                (detachCalls exPoll exHeap) ++
              [.spawn ((handler exEnv exPoll exHeap [⟨EPOLLHUP, 2⟩, ⟨EPOLLIN, 7⟩]).hups.filterMap
                (fun a => (exHeap a).OnHup))]) :=
  ⟨by decide, by decide,
   (C2_hangups_amended exEnv exPoll exHeap [⟨EPOLLHUP, 2⟩, ⟨EPOLLIN, 7⟩] (by decide)).2⟩

/-! ### The operator pool -/

/-- C5: `free(op)` on an operator whose `isUnused()` is false panics with
"op is using now" and leaves the operator, the free list and the slab list as
they were; when `isUnused()` is true it does not panic, resets the fields of
the operator and makes it the head of the free list, its `next` being the
head before the call; no other operator and not the slab list is changed. -/
theorem C5_free (s : Pool) (op : Nat) :
    ((s.heap op).isUnused = false → free s op = (some "op is using now", s)) ∧
    ((s.heap op).isUnused = true →
      (free s op).1 = none ∧
      (free s op).2.heap op = { (s.heap op).reset with next := s.c.first } ∧
      (free s op).2.heap op = { FDOperator.zero with next := s.c.first } ∧
      (free s op).2.c.first = some op ∧
      ((free s op).2.heap op).next = s.c.first ∧
      (free s op).2.c.cache = s.c.cache ∧
      (free s op).2.brk = s.brk ∧
      (∀ b, b ≠ op → (free s op).2.heap b = s.heap b)) := by
  refine ⟨fun hu => ?_, fun hu => ?_⟩
  · simp [free, hu]
  · simp only [free, hu, Bool.not_true, Bool.false_eq_true, if_false, true_and]
    refine ⟨?_, ?_, ?_, ?_⟩
    · simp [Heap.set]
    · simp [Heap.set, FDOperator.reset]
    · simp [Heap.set]
    · intro b hb
      simp [Heap.set, hb]

set_option maxRecDepth 100000 in
/-- C7, as stated, fails on the link `next`: in a fresh pool with 96-byte
operators (slabs of 42) the round trip returns the same operator (address
141) with every caller-visible field zero, but its `next` still holds the
address of the operator that followed it on the free list (140). -/
theorem C7_round_trip_counterexample :
    (roundTrip 96 (fun _ _ _ _ => 0) (fun _ _ _ _ => 0) exPoll PollReadable exOperator
        (Pool.init exHeap 100)).map
      (fun r => (r.1, r.2.1, r.2.2.1, r.2.2.2.heap r.1))
      = some (141, 141, none, { FDOperator.zero with next := some 140 }) ∧
    ({ FDOperator.zero with next := some 140 } : FDOperator) ≠ FDOperator.zero := by
  decide

theorem Control_add_heap (ctl : Int → Int → Int → epollevent → Errno) (p : defaultPoll)
    (h : Heap) (a : Nat) (add : PollEvent) (hadd : add = PollReadable ∨ add = PollWritable) :
    (Control ctl p h a add).heap = h.set a (h a).inuse := by
  rcases hadd with rfl | rfl
  · simp [Control, PollReadable]
  · simp [Control, PollReadable, PollModReadable, PollDetach, PollWritable]

theorem Control_detach_heap (ctl : Int → Int → Int → epollevent → Errno) (p : defaultPoll)
    (h : Heap) (a : Nat) :
    (Control ctl p h a PollDetach).heap = h.set a (h a).unused := by
  simp [Control, PollReadable, PollModReadable, PollDetach]

/-- C7, amended: for an operator obtained from `alloc` (unused, as every
operator of the free list is), then given arbitrary field values, registered
with `Control` (`PollReadable` or `PollWritable`, both `EPOLL_CTL_ADD`),
detached with `Control(PollDetach)` and passed to `free`, `free` does not
panic, the next `alloc` returns the same operator, and every field of it but
the link `next` holds its zero value: `fd`, the callbacks, the I/O provider
callbacks, `poll` and the count.  `next` holds the head the free list had
when the operator was freed, so it is `nil` only when the free list was empty
then. -/
theorem C7_round_trip_amended (opSize : Nat) (ctl1 ctl2 : Int → Int → Int → epollevent → Errno)
    (p : defaultPoll) (add : PollEvent) (v : FDOperator) (s s1 : Pool) (a : Nat)
    (hadd : add = PollReadable ∨ add = PollWritable)
    (halloc : alloc opSize s = some (a, s1))
    (hstate : (s1.heap a).state = 0) :
    ∃ s4, roundTrip opSize ctl1 ctl2 p add v s = some (a, a, none, s4) ∧
      s4.heap a = { FDOperator.zero with next := s1.c.first } ∧
      s4.c.first = s1.c.first ∧ s4.c.cache = s1.c.cache ∧
      ((s4.heap a).next = none ↔ s1.c.first = none) := by
  have hunused : ((Control ctl2 p (Control ctl1 p (s1.heap.set a (setFields v (s1.heap a))) a
      add).heap a PollDetach).heap a).isUnused = true := by
    rw [Control_detach_heap, Control_add_heap _ _ _ _ _ hadd]
    simp [Heap.set, FDOperator.isUnused, FDOperator.inuse, FDOperator.unused, setFields, hstate]
  simp only [roundTrip, halloc]
  simp only [free, hunused, Bool.not_true, Bool.false_eq_true, if_false]
  simp only [alloc]
  simp [Heap.set, FDOperator.reset, FDOperator.zero]

set_option maxRecDepth 100000 in
/-- C7, amended, at a concrete input: the first operator of a fresh pool with
slabs of 42 operators. -/
theorem C7_round_trip_amended_witness :
    (PollWritable = PollReadable ∨ PollWritable = PollWritable) ∧
    alloc 96 (Pool.init exHeap 100) = some (141, exPool1) ∧
    (exPool1.heap 141).state = 0 ∧
    ∃ s4, roundTrip 96 (fun _ _ _ _ => 0) (fun _ _ _ _ => 0) exPoll PollWritable exOperator
        (Pool.init exHeap 100) = some (141, 141, none, s4) ∧
      s4.heap 141 = { FDOperator.zero with next := exPool1.c.first } ∧
      s4.c.first = exPool1.c.first ∧ s4.c.cache = exPool1.c.cache ∧
      ((s4.heap 141).next = none ↔ exPool1.c.first = none) :=
  ⟨Or.inr rfl, rfl, by decide,
   C7_round_trip_amended 96 (fun _ _ _ _ => 0) (fun _ _ _ _ => 0) exPoll PollWritable
     exOperator (Pool.init exHeap 100) exPool1 141 (Or.inr rfl) rfl (by decide)⟩

theorem Chain_set (h : Heap) (a : Nat) (v : FDOperator) :
    ∀ (fl : List Nat) (first : Option Nat), a ∉ fl → Chain h first fl →
      Chain (h.set a v) first fl := by
  intro fl
  induction fl with
  | nil => intro first _ hc; cases first <;> simp [Chain] at hc ⊢
  | cons b l ih =>
    intro first hmem hc
    cases first with
    | none => simp [Chain] at hc
    | some x =>
      simp only [Chain] at hc ⊢
      obtain ⟨hx, hrest⟩ := hc
      subst hx
      have hne : x ≠ a := fun hxa => hmem (by simp [hxa])
      refine ⟨rfl, ?_⟩
      have : (h.set a v x).next = (h x).next := by simp [Heap.set, hne]
      rw [this]
      exact ih _ (fun hm => hmem (List.mem_cons_of_mem _ hm)) hrest

theorem growLoop_spec :
    ∀ (n : Nat) (s : Pool) (fl : List Nat),
      Chain s.heap s.c.first fl → (∀ x ∈ fl, x < s.brk) →
      (growLoop n s).c.cache = s.c.cache ++ List.range' s.brk n ∧
      (growLoop n s).brk = s.brk + n ∧
      Chain (growLoop n s).heap (growLoop n s).c.first ((List.range' s.brk n).reverse ++ fl) ∧
      (∀ b, b < s.brk → (growLoop n s).heap b = s.heap b) := by
  intro n
  induction n with
  | zero => intro s fl hc _; simpa [growLoop] using hc
  | succ n ih =>
    intro s fl hc hlt
    have hnot : s.brk ∉ fl := fun hm => absurd (hlt _ hm) (by omega)
    have hc2 : Chain (s.heap.set s.brk { FDOperator.zero with next := s.c.first })
        (some s.brk) (s.brk :: fl) := by
      simp only [Chain, true_and]
      have : (s.heap.set s.brk { FDOperator.zero with next := s.c.first } s.brk).next
          = s.c.first := by simp [Heap.set]
      rw [this]
      exact Chain_set _ _ _ _ _ hnot hc
    have := ih
      { heap := s.heap.set s.brk { FDOperator.zero with next := s.c.first },
        brk := s.brk + 1,
        c := { first := some s.brk, cache := s.c.cache ++ [s.brk] } }
      (s.brk :: fl) hc2
      (by
        intro x hx
        rcases List.mem_cons.mp hx with hx | hx
        · show x < s.brk + 1
          omega
        · have := hlt x hx
          show x < s.brk + 1
          omega)
    obtain ⟨h1, h2, h3, h4⟩ := this
    simp only [growLoop]
    refine ⟨?_, ?_, ?_, ?_⟩
    · rw [h1]; simp [List.range'_succ]
    · rw [h2]; show s.brk + 1 + n = s.brk + (n + 1); omega
    · have : (List.range' s.brk (n + 1)).reverse ++ fl
          = (List.range' (s.brk + 1) n).reverse ++ (s.brk :: fl) := by
        simp [List.range'_succ]
      rw [this]; exact h3
    · intro b hb
      rw [h4 b (by show b < s.brk + 1; omega)]
      have hne : b ≠ s.brk := by omega
      simp [Heap.set, hne]

theorem slabCount_eq (opSize : Nat) : slabCount opSize = max 1 (4096 / opSize) := by
  unfold slabCount block4k
  generalize 4096 / opSize = x
  split <;> omega

/-- What `alloc` does in a pool that satisfies the invariant. -/
theorem alloc_spec (opSize : Nat) (r : PoolRun) (fl : List Nat) (hinv : PoolInv r fl) :
    ∃ a s1 fl1, alloc opSize r.s = some (a, s1) ∧ PoolInv ⟨s1, a :: r.held⟩ fl1 ∧
      a ∉ r.held ∧ a ∈ s1.c.cache ∧
      (∀ b, b < r.s.brk → s1.heap b = r.s.heap b) ∧
      (r.s.c.first ≠ none → r.s.c.first = some a ∧ a ∈ r.s.c.cache ∧
        s1.c.cache = r.s.c.cache ∧ s1.brk = r.s.brk) ∧
      (r.s.c.first = none →
        s1.c.cache = r.s.c.cache ++ List.range' r.s.brk (max 1 (4096 / opSize)) ∧
        a ∈ List.range' r.s.brk (max 1 (4096 / opSize)) ∧
        s1.brk = r.s.brk + max 1 (4096 / opSize)) := by
  obtain ⟨hchain, hnd, hheld, hdisj, hflc, hheldc, hlt⟩ := hinv
  cases hfirst : r.s.c.first with
  | some a =>
    rw [hfirst] at hchain
    cases fl with
    | nil => simp [Chain] at hchain
    | cons b fl1 =>
      simp only [Chain] at hchain
      obtain ⟨hab, hrest⟩ := hchain
      subst hab
      have hnd2 := List.nodup_cons.mp hnd
      refine ⟨a, { r.s with c := { r.s.c with first := (r.s.heap a).next } }, fl1, ?_, ?_,
        hdisj a (by simp), hflc a (by simp), fun _ _ => rfl, ?_, ?_⟩
      · simp [alloc, hfirst]
      · refine ⟨hrest, hnd2.2, List.nodup_cons.mpr ⟨hdisj a (by simp), hheld⟩, ?_, ?_, ?_, hlt⟩
        · intro x hx hmem
          rcases List.mem_cons.mp hmem with rfl | hm
          · exact hnd2.1 hx
          · exact hdisj x (List.mem_cons_of_mem _ hx) hm
        · intro x hx; exact hflc x (List.mem_cons_of_mem _ hx)
        · intro x hx
          rcases List.mem_cons.mp hx with rfl | hm
          · exact hflc x (by simp)
          · exact hheldc x hm
      · intro _; exact ⟨rfl, hflc a (by simp), rfl, rfl⟩
      · intro hc; cases hc
  | none =>
    rw [hfirst] at hchain
    cases fl with
    | cons b fl1 => simp [Chain] at hchain
    | nil =>
      have hn : slabCount opSize = max 1 (4096 / opSize) := slabCount_eq opSize
      obtain ⟨m, hm⟩ : ∃ m, max 1 (4096 / opSize) = m + 1 := ⟨max 1 (4096 / opSize) - 1, by omega⟩
      have hg := growLoop_spec (slabCount opSize) r.s []
        (by rw [hfirst]; simp [Chain]) (by simp)
      rw [hn, hm] at hg
      obtain ⟨hcache, hbrk, hch, hold⟩ := hg
      rw [List.range'_concat, List.reverse_append] at hch
      simp only [List.reverse_cons, List.reverse_nil, List.nil_append, List.singleton_append,
        List.append_nil, Nat.one_mul] at hch
      cases hf2 : (growLoop (m + 1) r.s).c.first with
      | none => rw [hf2] at hch; simp [Chain] at hch
      | some a =>
        rw [hf2] at hch
        simp only [Chain] at hch
        obtain ⟨ha, hrest⟩ := hch
        have hheldlt : ∀ x ∈ r.held, x < r.s.brk := fun x hx => hlt x (hheldc x hx)
        have hamem : a ∈ List.range' r.s.brk (m + 1) := by
          rw [List.mem_range'_1]; omega
        refine ⟨a, { growLoop (m + 1) r.s with
            c := { (growLoop (m + 1) r.s).c with first := ((growLoop (m + 1) r.s).heap a).next } },
          (List.range' r.s.brk m).reverse, ?_, ?_, ?_, ?_, ?_, ?_, ?_⟩
        · simp [alloc, hfirst, hn, hm, hf2]
        · refine ⟨hrest, List.nodup_reverse.mpr (List.nodup_range' _ _), ?_, ?_, ?_, ?_, ?_⟩
          · refine List.nodup_cons.mpr ⟨fun hmem => ?_, hheld⟩
            have := hheldlt a hmem
            omega
          · intro x hx hmem
            rw [List.mem_reverse, List.mem_range'_1] at hx
            rcases List.mem_cons.mp hmem with rfl | hmm
            · omega
            · have := hheldlt x hmm
              omega
          · intro x hx
            rw [List.mem_reverse, List.mem_range'_1] at hx
            show x ∈ (growLoop (m + 1) r.s).c.cache
            rw [hcache]
            exact List.mem_append_right _ (List.mem_range'_1.mpr (by omega))
          · intro x hx
            show x ∈ (growLoop (m + 1) r.s).c.cache
            rw [hcache]
            rcases List.mem_cons.mp hx with rfl | hmm
            · exact List.mem_append_right _ hamem
            · exact List.mem_append_left _ (hheldc x hmm)
          · intro x hx
            show x < (growLoop (m + 1) r.s).brk
            have hx2 : x ∈ (growLoop (m + 1) r.s).c.cache := hx
            rw [hcache] at hx2
            rw [hbrk]
            rcases List.mem_append.mp hx2 with h1 | h1
            · have := hlt x h1
              omega
            · rw [List.mem_range'_1] at h1
              omega
        · intro hmem
          have := hheldlt a hmem
          omega
        · show a ∈ (growLoop (m + 1) r.s).c.cache
          rw [hcache]
          exact List.mem_append_right _ hamem
        · intro b hb
          exact hold b hb
        · intro hc; exact absurd rfl hc
        · intro _
          rw [hm]
          exact ⟨hcache, hamem, hbrk⟩

theorem free_inv (r : PoolRun) (fl : List Nat) (op : Nat) (hinv : PoolInv r fl)
    (hheldop : op ∈ r.held) (hu : (r.s.heap op).isUnused = true) :
    PoolInv ⟨(free r.s op).2, r.held.erase op⟩ (op :: fl) := by
  obtain ⟨hchain, hnd, hheld, hdisj, hflc, hheldc, hlt⟩ := hinv
  have hnotfl : op ∉ fl := fun hm => hdisj op hm hheldop
  have hfree : (free r.s op).2 =
      { r.s with
        heap := (r.s.heap.set op (r.s.heap op).reset).set op
          { (r.s.heap.set op (r.s.heap op).reset) op with next := r.s.c.first },
        c := { r.s.c with first := some op } } := by
    simp [free, hu]
  rw [hfree]
  refine ⟨?_, List.nodup_cons.mpr ⟨hnotfl, hnd⟩, hheld.erase op, ?_, ?_, ?_, hlt⟩
  · simp only [Chain, true_and]
    have hnext : (((r.s.heap.set op (r.s.heap op).reset).set op
        { (r.s.heap.set op (r.s.heap op).reset) op with next := r.s.c.first }) op).next
          = r.s.c.first := by simp [Heap.set]
    rw [hnext]
    exact Chain_set _ _ _ _ _ hnotfl (Chain_set _ _ _ _ _ hnotfl hchain)
  · intro x hx hmem
    rcases List.mem_cons.mp hx with rfl | hm
    · exact hheld.not_mem_erase hmem
    · exact hdisj x hm (List.mem_of_mem_erase hmem)
  · intro x hx
    rcases List.mem_cons.mp hx with rfl | hm
    · exact hheldc x hheldop
    · exact hflc x hm
  · intro x hx
    exact hheldc x (List.mem_of_mem_erase hx)

theorem write_inv (r : PoolRun) (fl : List Nat) (op : Nat) (v : FDOperator)
    (hinv : PoolInv r fl) (hheldop : op ∈ r.held) :
    PoolInv ⟨{ r.s with heap := r.s.heap.set op v }, r.held⟩ fl := by
  obtain ⟨hchain, hnd, hheld, hdisj, hflc, hheldc, hlt⟩ := hinv
  exact ⟨Chain_set _ _ _ _ _ (fun hm => hdisj op hm hheldop) hchain, hnd, hheld, hdisj, hflc,
    hheldc, hlt⟩

theorem stepCmd_inv (opSize : Nat) (r r1 : PoolRun) (c : PoolCmd) (fl : List Nat)
    (hinv : PoolInv r fl) (hstep : stepCmd opSize r c = some r1) :
    ∃ fl1, PoolInv r1 fl1 := by
  cases c with
  | alloc =>
    obtain ⟨a, s1, fl1, halloc, hinv1, _⟩ := alloc_spec opSize r fl hinv
    simp only [stepCmd, halloc, Option.some.injEq] at hstep
    subst hstep
    exact ⟨fl1, hinv1⟩
  | free op =>
    simp only [stepCmd] at hstep
    split at hstep
    · rename_i hcond
      simp only [Option.some.injEq] at hstep
      subst hstep
      exact ⟨op :: fl, free_inv r fl op hinv hcond.1 hcond.2⟩
    · cases hstep
  | write op v =>
    simp only [stepCmd] at hstep
    split at hstep
    · rename_i hcond
      simp only [Option.some.injEq] at hstep
      subst hstep
      exact ⟨fl, write_inv r fl op v hinv hcond⟩
    · cases hstep

theorem runCmds_inv (opSize : Nat) :
    ∀ (cs : List PoolCmd) (r r1 : PoolRun) (fl : List Nat),
      PoolInv r fl → runCmds opSize cs r = some r1 → ∃ fl1, PoolInv r1 fl1 := by
  intro cs
  induction cs with
  | nil =>
    intro r r1 fl hinv hrun
    simp only [runCmds, Option.some.injEq] at hrun
    subst hrun
    exact ⟨fl, hinv⟩
  | cons c cs ih =>
    intro r r1 fl hinv hrun
    simp only [runCmds] at hrun
    cases hstep : stepCmd opSize r c with
    | none => rw [hstep] at hrun; cases hrun
    | some r2 =>
      rw [hstep] at hrun
      obtain ⟨fl2, hinv2⟩ := stepCmd_inv opSize r r2 c fl hinv hstep
      exact ih r2 r1 fl2 hinv2 hrun

theorem init_inv (heap0 : Heap) (brk0 : Nat) : PoolInv ⟨Pool.init heap0 brk0, []⟩ [] := by
  simp [PoolInv, Pool.init, Chain]

/-- C6: after every sequence of `alloc` and `free` calls (and writes to held
operators) from the empty pool in which `free` is only applied to an operator
that is held and unused, the next `alloc` returns an operator (it does not
dereference `nil`) that no caller of an earlier `alloc` still holds and that
is an operator of the slab list; with a free list that is not empty it is the
head of the free list and the slab list is unchanged; with an empty free list
the slab list grows at its end by exactly `max 1 (4096 / opSize)` new
operators, all distinct and none of them in the slab list before, and the
returned operator is one of them.  No operator already in the slab list is
removed, replaced or written to. -/
theorem C6_alloc_fresh (opSize : Nat) (heap0 : Heap) (brk0 : Nat) (cs : List PoolCmd)
    (r : PoolRun) (hrun : runCmds opSize cs ⟨Pool.init heap0 brk0, []⟩ = some r) :
    ∃ a s1, alloc opSize r.s = some (a, s1) ∧
      a ∉ r.held ∧ a ∈ s1.c.cache ∧
      (∃ new, s1.c.cache = r.s.c.cache ++ new) ∧
      (∀ b ∈ r.s.c.cache, s1.heap b = r.s.heap b) ∧
      (r.s.c.first ≠ none →
        r.s.c.first = some a ∧ a ∈ r.s.c.cache ∧ s1.c.cache = r.s.c.cache) ∧
      (r.s.c.first = none →
        ∃ new, s1.c.cache = r.s.c.cache ++ new ∧ new.length = max 1 (4096 / opSize) ∧
          new.Nodup ∧ (∀ x ∈ new, x ∉ r.s.c.cache) ∧ a ∈ new) := by
  obtain ⟨fl, hinv⟩ := runCmds_inv opSize cs _ r [] (init_inv heap0 brk0) hrun
  obtain ⟨a, s1, fl1, halloc, _, hnot, hmem, hold, hsome, hnone⟩ := alloc_spec opSize r fl hinv
  have hlt := hinv.2.2.2.2.2.2
  refine ⟨a, s1, halloc, hnot, hmem, ?_, fun b hb => hold b (hlt b hb), ?_, ?_⟩
  · cases hfirst : r.s.c.first with
    | none => exact ⟨_, (hnone hfirst).1⟩
    | some x => exact ⟨[], by rw [(hsome (by rw [hfirst]; simp)).2.2.1]; simp⟩
  · intro hne
    exact ⟨(hsome hne).1, (hsome hne).2.1, (hsome hne).2.2.1⟩
  · intro hfirst
    refine ⟨List.range' r.s.brk (max 1 (4096 / opSize)), (hnone hfirst).1, by simp,
      List.nodup_range' _ _, ?_, (hnone hfirst).2.1⟩
    intro x hx hc
    rw [List.mem_range'_1] at hx
    have := hlt x hc
    omega

/-- C6, at a concrete input: in a fresh pool of 96-byte operators two
operators are allocated, the second is written to and freed; the next `alloc`
returns an operator that is not held. -/
theorem C6_alloc_fresh_witness :
    runCmds 96 [.alloc, .alloc, .write 140 exOperator, .free 140]
        ⟨Pool.init exHeap 100, []⟩ = some exRun ∧
    ∃ a s1, alloc 96 exRun.s = some (a, s1) ∧
      a ∉ exRun.held ∧ a ∈ s1.c.cache ∧
      (∃ new, s1.c.cache = exRun.s.c.cache ++ new) ∧
      (∀ b ∈ exRun.s.c.cache, s1.heap b = exRun.s.heap b) ∧
      (exRun.s.c.first ≠ none →
        exRun.s.c.first = some a ∧ a ∈ exRun.s.c.cache ∧ s1.c.cache = exRun.s.c.cache) ∧
      (exRun.s.c.first = none →
        ∃ new, s1.c.cache = exRun.s.c.cache ++ new ∧ new.length = max 1 (4096 / 96) ∧
          new.Nodup ∧ (∀ x ∈ new, x ∉ exRun.s.c.cache) ∧ a ∈ new) :=
  ⟨rfl, C6_alloc_fresh 96 exHeap 100 [.alloc, .alloc, .write 140 exOperator, .free 140]
    exRun rfl⟩

/-! ### Graceful close -/

theorem swap_remove_perm (l : List Nat) (i m : Nat) (hi : i < m) (hm : m ≤ l.length)
    (y : Nat) (hy : l[m - 1]? = some y) :
    (((l.set i y).take (m - 1)).drop i).Perm ((l.take m).drop (i + 1)) := by
  have hm1 : m - 1 < l.length := by omega
  have hyv : l[m - 1] = y := by
    rw [List.getElem?_eq_getElem hm1] at hy
    exact Option.some.inj hy
  have htake : l.take m = l.take (m - 1) ++ [y] := by
    have : m = (m - 1) + 1 := by omega
    rw [this, List.take_succ, List.getElem?_eq_getElem (by omega)]
    simp [hyv]
  by_cases hlast : i = m - 1
  · have h1 : ((l.set i y).take (m - 1)).drop i = [] := by
      apply List.drop_eq_nil_of_le
      simp; omega
    have h2 : (l.take m).drop (i + 1) = [] := by
      apply List.drop_eq_nil_of_le
      simp; omega
    rw [h1, h2]
  · have hlt : i < m - 1 := by omega
    have h1 : ((l.set i y).take (m - 1)).drop i = y :: (l.take (m - 1)).drop (i + 1) := by
      rw [List.set_take]
      rw [List.drop_eq_getElem_cons (by simp; omega)]
      rw [List.getElem_set_self, List.drop_set_of_lt _ _ (by omega)]
    have h2 : (l.take m).drop (i + 1) = (l.take (m - 1)).drop (i + 1) ++ [y] := by
      rw [htake, List.drop_append_of_le_length (by simp; omega)]
    rw [h1, h2]
    exact (List.perm_append_singleton _ _).symm

theorem results_map_fst (env : CloseEnv) :
    ∀ (cs : List Nat) (t : Nat), (results env t cs).map Prod.fst = cs := by
  intro cs
  induction cs with
  | nil => intro t; rfl
  | cons c cs ih => intro t; simp [results, ih]

theorem results_length (env : CloseEnv) (cs : List Nat) (t : Nat) :
    (results env t cs).length = cs.length := by
  have := congrArg List.length (results_map_fst env cs t)
  simpa using this

theorem emit_cons (x : Nat × Bool) (rs : List (Nat × Bool)) :
    emit (x :: rs) =
      (if x.2 then [.isIdle x.1 true, .close x.1] else [.isIdle x.1 false]) ++ emit rs := by
  simp [emit, List.flatMap_cons]

/-- One pass of the rescan loop, from index `i - 1` down to 0, over a slice
`conns[0..m-1]` of tracked connections: the connections `conns[i-1], ..., conns[0]`
are asked in this order, each once; the idle ones are closed; the slice after
the pass holds the connections above `i` and the ones that were not idle. -/
theorem scanLoop_spec (env : CloseEnv) :
    ∀ (i : Nat) (st : CloseState) (m : Nat),
      st.count = (m : Int) - 1 → i ≤ m → m ≤ st.conns.length →
      ∃ (st1 : CloseState) (m1 : Nat), scanLoop env i st = some st1 ∧
        st1.count = (m1 : Int) - 1 ∧ m1 ≤ m ∧
        m1 ≤ st1.conns.length ∧
        st1.t = st.t + i ∧ st1.conns.length = st.conns.length ∧
        st1.trace = st.trace ++ emit (results env st.t (st.conns.take i).reverse) ∧
        (st1.conns.take m1).Perm
          ((st.conns.take m).drop i ++
            busyOnes (results env st.t (st.conns.take i).reverse)) := by
  intro i
  induction i with
  | zero =>
    intro st m hc _ hm
    exact ⟨st, m, rfl, hc, le_refl _, hm, rfl, rfl, by simp [results, emit],
      by simp [results, busyOnes]⟩
  | succ i ih =>
    intro st m hc hi hm
    have hil : i < st.conns.length := by omega
    have hget : st.conns[i]? = some st.conns[i] := List.getElem?_eq_getElem hil
    have hrev : (st.conns.take (i + 1)).reverse = st.conns[i] :: (st.conns.take i).reverse := by
      rw [List.take_succ, hget]; simp
    have hdrop : (st.conns.take m).drop i = st.conns[i] :: (st.conns.take m).drop (i + 1) := by
      rw [List.drop_eq_getElem_cons (by simp; omega)]
      simp
    have hcnt : st.count.toNat = m - 1 := by omega
    have hm1 : m - 1 < st.conns.length := by omega
    have hlast : st.conns[st.count.toNat]? = some st.conns[m - 1] := by
      rw [hcnt]; exact List.getElem?_eq_getElem hm1
    by_cases hidle : env.idle st.t st.conns[i] = true
    · obtain ⟨st1, m1, hrun, hc1, hle, hlen1, ht, hlen, htr, hperm⟩ :=
        ih { t := st.t + 1, conns := st.conns.set i st.conns[m - 1], count := st.count - 1,
             trace := st.trace ++ [.isIdle st.conns[i] true, .close st.conns[i]] } (m - 1)
          (by show st.count - 1 = ((m - 1 : Nat) : Int) - 1; omega) (by omega)
          (by simp; omega)
      have htk : (st.conns.set i st.conns[m - 1]).take i = st.conns.take i := by
        rw [List.set_take, List.set_eq_of_length_le (by simp)]
      refine ⟨st1, m1, ?_, hc1, by omega, hlen1, ?_, ?_, ?_, ?_⟩
      · simp only [scanLoop, hget, hidle, if_true, hlast]
        exact hrun
      · rw [ht]; show st.t + 1 + i = st.t + (i + 1); omega
      · rw [hlen]; simp
      · rw [htr, hrev]
        simp only [results, emit_cons, hidle, if_true, htk]
        simp
      · refine hperm.trans ?_
        simp only [htk]
        rw [hrev]
        simp only [results, busyOnes, hidle]
        simp only [List.filter_cons, Bool.not_true, Bool.false_eq_true, if_false]
        exact List.Perm.append_right _
          (swap_remove_perm st.conns i m (by omega) hm _ (List.getElem?_eq_getElem hm1))
    · have hidle2 : env.idle st.t st.conns[i] = false := by simpa using hidle
      obtain ⟨st1, m1, hrun, hc1, hle, hlen1, ht, hlen, htr, hperm⟩ :=
        ih { st with t := st.t + 1, trace := st.trace ++ [.isIdle st.conns[i] false] } m
          hc (by omega) hm
      refine ⟨st1, m1, ?_, hc1, hle, hlen1, ?_, hlen, ?_, ?_⟩
      · simp only [scanLoop, hget, hidle2, Bool.false_eq_true, if_false]
        exact hrun
      · rw [ht]; show st.t + 1 + i = st.t + (i + 1); omega
      · rw [htr, hrev]
        simp only [results, emit_cons, hidle2, Bool.false_eq_true, if_false]
        simp
      · refine hperm.trans ?_
        show ((st.conns.take m).drop i ++
            busyOnes (results env (st.t + 1) (st.conns.take i).reverse)).Perm _
        rw [hrev, hdrop]
        simp only [results, busyOnes, hidle2]
        simp only [List.filter_cons, Bool.not_false, if_true, List.map_cons]
        simp only [List.cons_append]
        exact (List.perm_middle).symm

theorem rangePass_spec (env : CloseEnv) :
    ∀ (vals : List StoredConn) (st : CloseState), (∀ v ∈ vals, v.graceful = true) →
      rangePass env vals st =
        { t := st.t + vals.length,
          conns := st.conns ++ busyOnes (results env st.t (vals.map StoredConn.id)),
          count := st.count,
          trace := st.trace ++ emit (results env st.t (vals.map StoredConn.id)) } := by
  intro vals
  induction vals with
  | nil => intro st _; simp [rangePass, results, busyOnes, emit]
  | cons v vs ih =>
    intro st hg
    have hv : v.graceful = true := hg v (by simp)
    have hvs : ∀ x ∈ vs, x.graceful = true := fun x hx => hg x (by simp [hx])
    by_cases hidle : env.idle st.t v.id = true
    · simp only [rangePass, hv, if_true, hidle, Bool.not_true, Bool.false_eq_true, if_false]
      rw [ih _ hvs]
      simp only [List.map_cons, results, emit_cons, hidle, busyOnes, List.filter_cons,
        Bool.not_true, Bool.false_eq_true, if_false, if_true, List.length_cons]
      simp only [List.append_assoc, CloseState.mk.injEq, and_true, true_and]
      omega
    · have hidle2 : env.idle st.t v.id = false := by simpa using hidle
      simp only [rangePass, hv, if_true, hidle2, Bool.not_false]
      rw [ih _ hvs]
      simp only [List.map_cons, results, emit_cons, hidle2, busyOnes, List.filter_cons,
        Bool.not_false, Bool.false_eq_true, if_false, if_true, List.length_cons, List.map_cons]
      simp only [List.append_assoc, List.singleton_append, CloseState.mk.injEq, and_true,
        true_and]
      omega

theorem idleClosePaired_append :
    ∀ (a b : List SrvEvent), idleClosePaired a = true → idleClosePaired b = true →
      idleClosePaired (a ++ b) = true := by
  intro a
  induction a using idleClosePaired.induct with
  | case1 => intro b _ hb; simpa using hb
  | case2 c c1 rest ih =>
    intro b ha hb
    simp only [idleClosePaired, Bool.and_eq_true] at ha
    simp only [List.cons_append, idleClosePaired, Bool.and_eq_true]
    exact ⟨ha.1, ih b ha.2 hb⟩
  | case3 c tl hne =>
    intro b ha _
    cases tl with
    | nil => simp [idleClosePaired] at ha
    | cons x xs =>
      cases x <;> first | (exact absurd rfl (hne _ _)) | (simp [idleClosePaired] at ha)
  | case4 c tl => intro b ha _; simp [idleClosePaired] at ha
  | case5 x rest h1 h2 h3 ih =>
    intro b ha hb
    cases x with
    | isIdle c d =>
      cases d with
      | true => exact (h2 c rfl).elim
      | false =>
        simp only [idleClosePaired] at ha
        simp only [List.cons_append, idleClosePaired]
        exact ih b ha hb
    | close c => exact (h3 c rfl).elim
    | quit =>
      simp only [idleClosePaired] at ha
      simp only [List.cons_append, idleClosePaired]
      exact ih b ha hb
    | detachListener =>
      simp only [idleClosePaired] at ha
      simp only [List.cons_append, idleClosePaired]
      exact ih b ha hb
    | closeListener =>
      simp only [idleClosePaired] at ha
      simp only [List.cons_append, idleClosePaired]
      exact ih b ha hb
    | select d =>
      simp only [idleClosePaired] at ha
      simp only [List.cons_append, idleClosePaired]
      exact ih b ha hb

theorem emit_paired : ∀ (rs : List (Nat × Bool)), idleClosePaired (emit rs) = true := by
  intro rs
  induction rs with
  | nil => rfl
  | cons x rs ih =>
    rw [emit_cons]
    obtain ⟨c, d⟩ := x
    cases d
    · simpa [idleClosePaired] using ih
    · simpa [idleClosePaired] using ih

theorem closedConns_append (a b : List SrvEvent) :
    closedConns (a ++ b) = closedConns a ++ closedConns b := by
  simp [closedConns, List.filterMap_append]

theorem closedConns_emit : ∀ (rs : List (Nat × Bool)), closedConns (emit rs) = idleOnes rs := by
  intro rs
  induction rs with
  | nil => rfl
  | cons x rs ih =>
    rw [emit_cons, closedConns_append, ih]
    obtain ⟨c, d⟩ := x
    cases d <;> simp [closedConns, idleOnes, List.filter_cons]

theorem close_mem_emit (env : CloseEnv) (c : Nat) :
    ∀ (cs : List Nat) (t : Nat), SrvEvent.close c ∈ emit (results env t cs) →
      ∃ t1, env.idle t1 c = true := by
  intro cs
  induction cs with
  | nil => intro t hmem; simp [results, emit] at hmem
  | cons x cs ih =>
    intro t hmem
    rw [results, emit_cons, List.mem_append] at hmem
    rcases hmem with hm | hm
    · by_cases hidle : env.idle t x = true
      · simp only [hidle, if_true, List.mem_cons, SrvEvent.close.injEq, List.mem_singleton,
          List.not_mem_nil, or_false, false_or] at hm
        simp only [reduceCtorEq, false_or] at hm
        exact ⟨t, by rw [hm]; exact hidle⟩
      · simp [hidle] at hm
    · exact ih _ hm

theorem idle_busy_perm (rs : List (Nat × Bool)) :
    (idleOnes rs ++ busyOnes rs).Perm (rs.map Prod.fst) := by
  have := (List.filter_append_perm (fun x : Nat × Bool => x.2) rs).map Prod.fst
  simpa [idleOnes, busyOnes] using this

theorem mem_closedConns (c : Nat) (tr : List SrvEvent) :
    c ∈ closedConns tr ↔ SrvEvent.close c ∈ tr := by
  simp only [closedConns, List.mem_filterMap]
  constructor
  · rintro ⟨e, he, hc⟩
    cases e <;> simp at hc
    subst hc; exact he
  · intro h; exact ⟨_, h, rfl⟩

theorem tracked_of_count (st : CloseState) (m : Nat) (hc : st.count = (m : Int) - 1) :
    tracked st = st.conns.take m := by
  have : (st.count + 1).toNat = m := by omega
  simp [tracked, this]

/-- One rescan pass keeps the invariant. -/
theorem scan_inv (env : CloseEnv) (ids : List Nat) (st : CloseState)
    (hinv : CloseInv env ids st) :
    ∃ st1, scanLoop env (st.count + 1).toNat st = some st1 ∧ CloseInv env ids st1 ∧
      st1.t = st.t + (tracked st).length ∧
      st1.trace = st.trace ++ emit (results env st.t (tracked st).reverse) ∧
      (tracked st1).Perm (busyOnes (results env st.t (tracked st).reverse)) := by
  obtain ⟨hp, himp, hnd, hids, m, hc, hm⟩ := hinv
  have hidx : (st.count + 1).toNat = m := by omega
  have htr := tracked_of_count st m hc
  obtain ⟨st1, m1, hrun, hc1, hle, hlen1, ht, hlen, htrace, hperm⟩ :=
    scanLoop_spec env m st m hc (le_refl _) hm
  have htr1 := tracked_of_count st1 m1 hc1
  have hdrop : (st.conns.take m).drop m = [] :=
    List.drop_eq_nil_of_le (by simp)
  rw [hdrop, List.nil_append, ← htr] at hperm
  rw [← htr] at htrace
  rw [← htr1] at hperm
  have hclosed : closedConns st1.trace =
      closedConns st.trace ++ idleOnes (results env st.t (tracked st).reverse) := by
    rw [htrace, closedConns_append, closedConns_emit]
  have hall : (closedConns st1.trace ++ tracked st1).Perm
      (closedConns st.trace ++ tracked st) := by
    rw [hclosed, List.append_assoc]
    refine List.Perm.append_left _ ?_
    refine (List.Perm.append_left _ hperm).trans ?_
    refine (idle_busy_perm _).trans ?_
    rw [results_map_fst]
    exact List.reverse_perm _
  refine ⟨st1, by rw [hidx]; exact hrun, ⟨?_, ?_, ?_, ?_, m1, hc1, hlen1⟩, ?_, htrace, hperm⟩
  · rw [htrace]; exact idleClosePaired_append _ _ hp (emit_paired _)
  · intro c hmem
    rw [htrace, List.mem_append] at hmem
    rcases hmem with h1 | h1
    · exact himp c h1
    · exact close_mem_emit env c _ _ h1
  · exact hall.nodup_iff.mpr hnd
  · intro c hmem
    exact hids c (hall.mem_iff.mp hmem)
  · rw [ht, htr]; simp; omega

theorem select_inv (env : CloseEnv) (ids : List Nat) (st : CloseState) (b : Bool)
    (hinv : CloseInv env ids st) :
    CloseInv env ids { st with trace := st.trace ++ [.select b] } := by
  obtain ⟨hp, himp, hnd, hids, hm⟩ := hinv
  have hcl : closedConns (st.trace ++ [.select b]) = closedConns st.trace := by
    rw [closedConns_append]; simp [closedConns]
  refine ⟨idleClosePaired_append _ _ hp (by simp [idleClosePaired]), ?_, ?_, ?_, hm⟩
  · intro c hmem
    simp only [List.mem_append, List.mem_singleton, reduceCtorEq, or_false] at hmem
    exact himp c hmem
  · show (closedConns (st.trace ++ [.select b]) ++ tracked st).Nodup
    rw [hcl]; exact hnd
  · show ∀ c ∈ closedConns (st.trace ++ [.select b]) ++ tracked st, c ∈ ids
    rw [hcl]; exact hids

/-- The loop of `server.Close` keeps the invariant and never indexes out of
range. -/
theorem closeLoop_inv (env : CloseEnv) (ids : List Nat) :
    ∀ (fuel k : Nat) (st : CloseState), CloseInv env ids st →
      (closeLoop env fuel k st).1 ≠ .indexPanic ∧ CloseInv env ids (closeLoop env fuel k st).2 := by
  intro fuel
  induction fuel with
  | zero =>
    intro k st hinv
    simp only [closeLoop]
    split <;> exact ⟨by simp, hinv⟩
  | succ fuel ih =>
    intro k st hinv
    simp only [closeLoop]
    split
    · obtain ⟨st1, hrun, hinv1, _⟩ := scan_inv env ids st hinv
      rw [hrun]
      simp only
      split
      · exact ⟨by simp, select_inv env ids st1 true hinv1⟩
      · exact ih (k + 1) _ (select_inv env ids st1 false hinv1)
    · exact ⟨by simp, hinv⟩

/-- C8: in `server.Close` on stored connections that all implement
`gracefulExit` and are pairwise distinct, the initial pass asks each stored
connection once, in the order of `Range`, closes those that answer "idle" and
tracks the others; every rescan pass asks each tracked connection once (from
index `count` down to 0), closes those that answer "idle" and keeps exactly
the others in `conns[0..count]`, in some order; so over the whole call every
`Close()` of a connection follows at once an `isIdle()` of it that answered
`true` and every such answer is followed by the `Close()`, no connection is
closed twice, a closed connection is no longer tracked, only stored
connections are closed, and a connection that answers "not idle" to every
check is never closed.  No index is ever out of range. -/
theorem C8_close_passes (env : CloseEnv) (fuel : Nat) (vals : List StoredConn)
    (hg : ∀ v ∈ vals, v.graceful = true) (hnd : (vals.map StoredConn.id).Nodup) :
    (rangePass env vals closeStart =
      { t := vals.length,
        conns := busyOnes (results env 0 (vals.map StoredConn.id)),
        count := 0,
        trace := [.detachListener, .closeListener] ++
          emit (results env 0 (vals.map StoredConn.id)) }) ∧
    (∀ (st : CloseState) (m : Nat), st.count = (m : Int) - 1 → m ≤ st.conns.length →
      ∃ st1, scanLoop env (st.count + 1).toNat st = some st1 ∧
        st1.t = st.t + (tracked st).length ∧
        st1.trace = st.trace ++ emit (results env st.t (tracked st).reverse) ∧
        (tracked st1).Perm (busyOnes (results env st.t (tracked st).reverse))) ∧
    ((server.Close env fuel vals).1 ≠ .indexPanic ∧
      idleClosePaired (server.Close env fuel vals).2.trace = true ∧
      (closedConns (server.Close env fuel vals).2.trace).Nodup ∧
      (∀ c, SrvEvent.close c ∈ (server.Close env fuel vals).2.trace →
        c ∈ vals.map StoredConn.id ∧ c ∉ tracked (server.Close env fuel vals).2) ∧
      (∀ c, (∀ t, env.idle t c = false) →
        SrvEvent.close c ∉ (server.Close env fuel vals).2.trace)) := by
  have hrange := rangePass_spec env vals closeStart hg
  simp only [closeStart, Nat.zero_add, List.nil_append] at hrange
  have hstart : CloseInv env (vals.map StoredConn.id)
      { rangePass env vals closeStart with
        count := ((rangePass env vals closeStart).conns.length : Int) - 1 } := by
    simp only [closeStart]
    rw [hrange]
    have hcl : closedConns ([SrvEvent.detachListener, SrvEvent.closeListener] ++
        emit (results env 0 (vals.map StoredConn.id)))
        = idleOnes (results env 0 (vals.map StoredConn.id)) := by
      rw [closedConns_append, closedConns_emit]; simp [closedConns]
    have htr : tracked
        { t := vals.length, conns := busyOnes (results env 0 (vals.map StoredConn.id)),
          count := ((busyOnes (results env 0 (vals.map StoredConn.id))).length : Int) - 1,
          trace := [SrvEvent.detachListener, SrvEvent.closeListener] ++
            emit (results env 0 (vals.map StoredConn.id)) }
        = busyOnes (results env 0 (vals.map StoredConn.id)) := by
      rw [tracked_of_count _ _ rfl]; simp
    have hperm := idle_busy_perm (results env 0 (vals.map StoredConn.id))
    rw [results_map_fst] at hperm
    refine ⟨?_, ?_, ?_, ?_, _, rfl, le_refl _⟩
    · exact idleClosePaired_append _ _ (by simp [idleClosePaired]) (emit_paired _)
    · intro c hmem
      rw [List.mem_append] at hmem
      rcases hmem with h1 | h1
      · simp at h1
      · exact close_mem_emit env c _ _ h1
    · rw [htr]
      show (closedConns ([SrvEvent.detachListener, SrvEvent.closeListener] ++
        emit (results env 0 (vals.map StoredConn.id))) ++ _).Nodup
      rw [hcl]; exact hperm.nodup_iff.mpr hnd
    · rw [htr]
      show ∀ c ∈ closedConns ([SrvEvent.detachListener, SrvEvent.closeListener] ++
        emit (results env 0 (vals.map StoredConn.id))) ++ _, c ∈ _
      rw [hcl]
      intro c hmem; exact hperm.mem_iff.mp hmem
  have hfinal := closeLoop_inv env (vals.map StoredConn.id) fuel 0 _ hstart
  refine ⟨by simpa [closeStart] using hrange, ?_, ?_⟩
  · intro st m hc hm
    have hidx : (st.count + 1).toNat = m := by omega
    have htr := tracked_of_count st m hc
    obtain ⟨st1, m1, hrun, hc1, _, _, ht, _, htrace, hperm⟩ :=
      scanLoop_spec env m st m hc (le_refl _) hm
    have hdrop : (st.conns.take m).drop m = [] := List.drop_eq_nil_of_le (by simp)
    rw [hdrop, List.nil_append, ← htr, ← tracked_of_count st1 m1 hc1] at hperm
    rw [← htr] at htrace
    exact ⟨st1, by rw [hidx]; exact hrun, by rw [ht, htr]; simp; omega, htrace, hperm⟩
  · obtain ⟨hnp, hp, himp, hnd2, hids, _⟩ := hfinal
    refine ⟨hnp, hp, (List.nodup_append.mp hnd2).1, ?_, ?_⟩
    · intro c hmem
      have hc := (mem_closedConns c _).mpr hmem
      exact ⟨hids c (List.mem_append_left _ hc),
        fun htk => (List.nodup_append.mp hnd2).2.2 hc htk⟩
    · intro c hnever hmem
      obtain ⟨t, ht⟩ := himp c hmem
      rw [hnever t] at ht
      cases ht

/-- C8, at a concrete input: two stored connections that answer "not idle" to
the first check and "idle" afterwards. -/
theorem C8_close_passes_witness :
    (∀ v ∈ [(⟨7, true⟩ : StoredConn), ⟨8, true⟩], v.graceful = true) ∧
    ([(⟨7, true⟩ : StoredConn), ⟨8, true⟩].map StoredConn.id).Nodup ∧
    (closedConns (server.Close exCloseEnvTick 3 [⟨7, true⟩, ⟨8, true⟩]).2.trace).Nodup ∧
    (server.Close exCloseEnvTick 3 [⟨7, true⟩, ⟨8, true⟩]).2.trace =
      [.detachListener, .closeListener, .isIdle 7 false, .isIdle 8 true, .close 8,
       .isIdle 7 true, .close 7, .select false] :=
  ⟨by decide, by decide,
   (C8_close_passes exCloseEnvTick 3 [⟨7, true⟩, ⟨8, true⟩] (by decide) (by decide)).2.2.2.2.1,
   by decide⟩

/-- C9 fails on the code: with one stored connection that answers "not idle"
to the check of the first pass and "idle" to the check of the rescan that
follows at once, `server.Close` closes it, no connection is tracked any more
(`count` is -1), and the `select` at the end of the loop body is still
executed: with a context that is done it returns `ctx.Err()`, with one that
is not done it returns `nil` only after the ticker fired. -/
theorem C9_close_after_last_connection :
    server.Close exCloseEnv 5 [⟨7, true⟩] =
      (.returned (some 1),
       { t := 2, conns := [7], count := -1,
         trace := [.detachListener, .closeListener, .isIdle 7 false, .isIdle 7 true,
                   .close 7, .select true] }) ∧
    tracked (server.Close exCloseEnv 5 [⟨7, true⟩]).2 = [] ∧
    eventLoop.Shutdown exCloseEnv 5 (some [⟨7, true⟩]) =
      (.returned (some 1),
       [.quit, .detachListener, .closeListener, .isIdle 7 false, .isIdle 7 true,
        .close 7, .select true]) ∧
    server.Close exCloseEnvTick 5 [⟨7, true⟩] =
      (.returned none,
       { t := 2, conns := [7], count := -1,
         trace := [.detachListener, .closeListener, .isIdle 7 false, .isIdle 7 true,
                   .close 7, .select false] }) := by
  decide

/-- When every stored connection answers "idle" to the check of the first
pass, `server.Close` closes all of them and returns `nil` without reaching
the `select`, whatever the context. -/
theorem server_Close_all_idle (env : CloseEnv) (fuel : Nat) (vals : List StoredConn)
    (hg : ∀ v ∈ vals, v.graceful = true)
    (hidle : ∀ t c, env.idle t c = true) :
    (server.Close env fuel vals).1 = .returned none ∧
    (server.Close env fuel vals).2.trace =
      [.detachListener, .closeListener] ++
        (vals.map StoredConn.id).flatMap (fun c => [.isIdle c true, .close c]) := by
  have hrange := rangePass_spec env vals closeStart hg
  have hbusy : ∀ (cs : List Nat) (t : Nat), busyOnes (results env t cs) = [] ∧
      emit (results env t cs) = cs.flatMap (fun c => [.isIdle c true, .close c]) := by
    intro cs
    induction cs with
    | nil => intro t; simp [results, busyOnes, emit]
    | cons c cs ih =>
      intro t
      have h1 := ih (t + 1)
      simp only [busyOnes] at h1
      simp only [results, busyOnes, emit_cons, hidle, List.filter_cons, Bool.not_true,
        Bool.false_eq_true, if_false, if_true, h1.1, h1.2, List.flatMap_cons, and_self]
  have hst : rangePass env vals closeStart =
      { t := vals.length, conns := [], count := 0,
        trace := [.detachListener, .closeListener] ++
          (vals.map StoredConn.id).flatMap (fun c => [.isIdle c true, .close c]) } := by
    rw [hrange]
    simp [closeStart, (hbusy _ _).1, (hbusy _ _).2]
  unfold server.Close
  rw [hst]
  cases fuel <;> simp [closeLoop]

/-! ### Dispatch order -/

theorem lor_eq_zero (a b : Nat) : a ||| b = 0 ↔ a = 0 ∧ b = 0 := by
  constructor
  · intro hab
    have hbits : ∀ i, (a.testBit i || b.testBit i) = false := by
      intro i
      rw [← Nat.testBit_or, hab]
      simp
    constructor
    · apply Nat.eq_of_testBit_eq
      intro i
      have := hbits i
      simp only [Bool.or_eq_false_iff] at this
      simp [this.1]
    · apply Nat.eq_of_testBit_eq
      intro i
      have := hbits i
      simp only [Bool.or_eq_false_iff] at this
      simp [this.2]
  · rintro ⟨rfl, rfl⟩
    rfl

/-- The test `events[i].events&(syscall.EPOLLHUP|syscall.EPOLLRDHUP) != 0` of
`handler` holds exactly when one of the two bits is set. -/
theorem hup_test (x : Nat) :
    x &&& (EPOLLHUP ||| EPOLLRDHUP) ≠ 0 ↔ (x &&& EPOLLHUP ≠ 0 ∨ x &&& EPOLLRDHUP ≠ 0) := by
  rw [Nat.and_or_distrib_left, ne_eq, lor_eq_zero]
  tauto

/-- C11: for an event of an operator that is not the wake operator and whose
`do()` answered `true`, `handler` takes one branch, the first that matches in
the order hangup, error, readable, writable.  With `HUP` or `RDHUP` set the
operator is only enqueued for hangup, whatever other bits are set.  With
`ERR` set and neither hangup bit, only the error-queue probe is made.  With
`IN` set and none of the former, the event is handled exactly as an event
that carries `IN` alone, also when `OUT` is set: the read action (`OnRead`,
or `Inputs` and the vectored read) and no write action or probe.  With `OUT`
set and none of the former, only the write action.  With none of the bits,
nothing but `do()` and `done()`. -/
theorem C11_branch_order (env : HandlerEnv) (p : defaultPoll) (h : Heap) (i : Nat)
    (ev : epollevent) (buf : List Nat) (trigger : Nat) (hups : List Nat)
    (hwake : (h ev.data).FD ≠ (h p.wop).FD) (hdo : env.doRes i = true) :
    ((ev.events &&& EPOLLHUP ≠ 0 ∨ ev.events &&& EPOLLRDHUP ≠ 0) →
      handleEvent env p h i ev buf trigger hups =
        { closed := false, buf := buf, trigger := trigger, hups := hups ++ [ev.data],
          trace := [.opDo ev.data true, .opDone ev.data] }) ∧
    (ev.events &&& EPOLLHUP = 0 → ev.events &&& EPOLLRDHUP = 0 →
      ev.events &&& EPOLLERR ≠ 0 →
      (handleEvent env p h i ev buf trigger hups).trace =
        [.opDo ev.data true, .recvmsg (h ev.data).FD MSG_ERRQUEUE, .opDone ev.data]) ∧
    (ev.events &&& EPOLLHUP = 0 → ev.events &&& EPOLLRDHUP = 0 →
      ev.events &&& EPOLLERR = 0 → ev.events &&& EPOLLIN ≠ 0 →
      handleEvent env p h i ev buf trigger hups =
        handleEvent env p h i ⟨EPOLLIN, ev.data⟩ buf trigger hups ∧
      (∀ e ∈ (handleEvent env p h i ev buf trigger hups).trace,
        isWriteAction e = false ∧ isProbe e = false) ∧
      (∃ e ∈ (handleEvent env p h i ev buf trigger hups).trace, isReadAction e = true)) ∧
    (ev.events &&& EPOLLHUP = 0 → ev.events &&& EPOLLRDHUP = 0 →
      ev.events &&& EPOLLERR = 0 → ev.events &&& EPOLLIN = 0 → ev.events &&& EPOLLOUT ≠ 0 →
      handleEvent env p h i ev buf trigger hups =
        handleEvent env p h i ⟨EPOLLOUT, ev.data⟩ buf trigger hups ∧
      (∀ e ∈ (handleEvent env p h i ev buf trigger hups).trace,
        isReadAction e = false ∧ isProbe e = false) ∧
      (∃ e ∈ (handleEvent env p h i ev buf trigger hups).trace, isWriteAction e = true)) ∧
    (ev.events &&& EPOLLHUP = 0 → ev.events &&& EPOLLRDHUP = 0 →
      ev.events &&& EPOLLERR = 0 → ev.events &&& EPOLLIN = 0 → ev.events &&& EPOLLOUT = 0 →
      handleEvent env p h i ev buf trigger hups =
        { closed := false, buf := buf, trigger := trigger, hups := hups,
          trace := [.opDo ev.data true, .opDone ev.data] }) := by
  have hnohup : ∀ x : Nat, x &&& EPOLLHUP = 0 → x &&& EPOLLRDHUP = 0 →
      x &&& (EPOLLHUP ||| EPOLLRDHUP) = 0 := by
    intro x h1 h2
    by_contra hne
    rcases (hup_test x).mp hne with h3 | h3
    · exact h3 h1
    · exact h3 h2
  have hIN1 : EPOLLIN &&& (EPOLLHUP ||| EPOLLRDHUP) = 0 := by decide
  have hIN2 : EPOLLIN &&& EPOLLERR = 0 := by decide
  have hIN3 : EPOLLIN ≠ 0 := by decide
  have hOUT1 : EPOLLOUT &&& (EPOLLHUP ||| EPOLLRDHUP) = 0 := by decide
  have hOUT2 : EPOLLOUT &&& EPOLLERR = 0 := by decide
  have hOUT3 : EPOLLOUT &&& EPOLLIN = 0 := by decide
  have hOUT4 : EPOLLOUT ≠ 0 := by decide
  refine ⟨?_, ?_, ?_, ?_, ?_⟩
  · intro hh
    have hx := (hup_test ev.events).mpr hh
    simp [handleEvent, hwake, hdo, hx]
  · intro h1 h2 herr
    have hx := hnohup _ h1 h2
    by_cases hq : env.recvmsgErr i = some EAGAIN <;>
      simp [handleEvent, hwake, hdo, hx, herr, hq]
  · intro h1 h2 herr hin
    have hx := hnohup _ h1 h2
    have heq : handleEvent env p h i ev buf trigger hups =
        handleEvent env p h i ⟨EPOLLIN, ev.data⟩ buf trigger hups := by
      simp [handleEvent, hwake, hdo, hx, herr, hin, hIN1, hIN2, hIN3]
    refine ⟨heq, ?_, ?_⟩
    · simp only [handleEvent, hwake, hdo, hx, herr, hin]
      simp only [if_false, Bool.not_true, Bool.false_eq_true, ne_eq, not_true_eq_false,
        not_false_eq_true, if_true]
      repeat' split
      all_goals simp [isWriteAction, isProbe]
    · simp only [handleEvent, hwake, hdo, hx, herr, hin]
      simp only [if_false, Bool.not_true, Bool.false_eq_true, ne_eq, not_true_eq_false,
        not_false_eq_true, if_true]
      repeat' split
      all_goals simp [isReadAction]
  · intro h1 h2 herr hin hout
    have hx := hnohup _ h1 h2
    have heq : handleEvent env p h i ev buf trigger hups =
        handleEvent env p h i ⟨EPOLLOUT, ev.data⟩ buf trigger hups := by
      simp [handleEvent, hwake, hdo, hx, herr, hin, hout, hOUT1, hOUT2, hOUT3, hOUT4]
    refine ⟨heq, ?_, ?_⟩
    · simp only [handleEvent, hwake, hdo, hx, herr, hin, hout]
      simp only [if_false, Bool.not_true, Bool.false_eq_true, ne_eq, not_true_eq_false,
        not_false_eq_true, if_true]
      repeat' split
      all_goals simp [isReadAction, isProbe]
    · simp only [handleEvent, hwake, hdo, hx, herr, hin, hout]
      simp only [if_false, Bool.not_true, Bool.false_eq_true, ne_eq, not_true_eq_false,
        not_false_eq_true, if_true]
      repeat' split
      all_goals simp [isWriteAction]
  · intro h1 h2 herr hin hout
    have hx := hnohup _ h1 h2
    simp [handleEvent, hwake, hdo, hx, herr, hin, hout]

/-- C11, at a concrete input: an event with `IN`, `OUT`, `ERR` and `HUP` set
only enqueues the operator, and an event with `IN` and `OUT` set for an
operator with both callbacks calls `OnRead` only. -/
theorem C11_branch_order_witness :
    (exHeap 7).FD ≠ (exHeap exPoll.wop).FD ∧ exEnv.doRes 0 = true ∧
    handleEvent exEnv exPoll exHeap 0 ⟨EPOLLIN ||| EPOLLOUT ||| EPOLLERR ||| EPOLLHUP, 7⟩
        exPoll.buf 1 [] =
      { closed := false, buf := exPoll.buf, trigger := 1, hups := [] ++ [7],
        trace := [.opDo 7 true, .opDone 7] } ∧
    (handleEvent exEnv exPoll exHeap 0 ⟨EPOLLIN ||| EPOLLOUT, 7⟩ exPoll.buf 1 []).trace =
      [.opDo 7 true, .onRead 7 70, .opDone 7] :=
  ⟨by decide, rfl,
   (C11_branch_order exEnv exPoll exHeap 0
      ⟨EPOLLIN ||| EPOLLOUT ||| EPOLLERR ||| EPOLLHUP, 7⟩ exPoll.buf 1 []
      (by decide) rfl).1 (Or.inl (by decide)),
   by decide⟩

/-- C14, as stated, fails when the error-queue `recvmsg` reports no error: the
test is `err != syscall.EAGAIN`, which holds for `nil`, so the operator (here
at address 5) is enqueued and detached by the same pass. -/
theorem C14_error_probe_counterexample :
    exEnv.recvmsgErr 0 = none ∧
    (handleEvent exEnv exPoll exHeap 0 ⟨EPOLLERR, 5⟩ exPoll.buf 1 []).hups = [5] ∧
    (handler exEnv exPoll exHeap [⟨EPOLLERR, 5⟩]).trace =
      [.opDo 5 true, .recvmsg 15 MSG_ERRQUEUE, .opDone 5,
       .epollCtl 4 EPOLL_CTL_DEL 15 ⟨EPOLLIN ||| EPOLLOUT ||| EPOLLRDHUP ||| EPOLLERR, 5⟩,
       .unused 5, .spawn []] := by
  decide

/-- C14, amended: for an event that indicates error (`ERR` set, neither `HUP`
nor `RDHUP`) of an operator that is not the wake operator and whose `do()`
answered `true`, `handler` makes one error-queue `recvmsg` on the operator's
descriptor and enqueues the operator for hangup exactly when the error of
that call is not `EAGAIN`: with `EAGAIN` the operator is not enqueued, with
any other error and with no error at all it is. -/
theorem C14_error_probe_amended (env : HandlerEnv) (p : defaultPoll) (h : Heap) (i : Nat)
    (ev : epollevent) (buf : List Nat) (trigger : Nat) (hups : List Nat)
    (hwake : (h ev.data).FD ≠ (h p.wop).FD) (hdo : env.doRes i = true)
    (hhup : ev.events &&& EPOLLHUP = 0) (hrdhup : ev.events &&& EPOLLRDHUP = 0)
    (herr : ev.events &&& EPOLLERR ≠ 0) :
    (handleEvent env p h i ev buf trigger hups).trace =
      [.opDo ev.data true, .recvmsg (h ev.data).FD MSG_ERRQUEUE, .opDone ev.data] ∧
    ((handleEvent env p h i ev buf trigger hups).hups = hups ++ [ev.data] ↔
      env.recvmsgErr i ≠ some EAGAIN) ∧
    ((handleEvent env p h i ev buf trigger hups).hups = hups ↔
      env.recvmsgErr i = some EAGAIN) ∧
    (env.recvmsgErr i = none →
      (handleEvent env p h i ev buf trigger hups).hups = hups ++ [ev.data]) ∧
    (∀ e, env.recvmsgErr i = some e → e ≠ EAGAIN →
      (handleEvent env p h i ev buf trigger hups).hups = hups ++ [ev.data]) := by
  have hx : ev.events &&& (EPOLLHUP ||| EPOLLRDHUP) = 0 := by
    by_contra hne
    rcases (hup_test ev.events).mp hne with h3 | h3
    · exact h3 hhup
    · exact h3 hrdhup
  by_cases hq : env.recvmsgErr i = some EAGAIN
  · simp [handleEvent, hwake, hdo, hx, herr, hq]
  · simp [handleEvent, hwake, hdo, hx, herr, hq]

/-- C14, amended, at a concrete input: the probe answers `EAGAIN` and the
operator at address 5 is not enqueued. -/
theorem C14_error_probe_amended_witness :
    (exHeap 5).FD ≠ (exHeap exPoll.wop).FD ∧
    ({ exEnv with recvmsgErr := fun _ => some EAGAIN } : HandlerEnv).doRes 0 = true ∧
    (⟨EPOLLERR ||| EPOLLIN, 5⟩ : epollevent).events &&& EPOLLERR ≠ 0 ∧
    ((handleEvent { exEnv with recvmsgErr := fun _ => some EAGAIN } exPoll exHeap 0
        ⟨EPOLLERR ||| EPOLLIN, 5⟩ exPoll.buf 1 []).hups = [] ↔
      ({ exEnv with recvmsgErr := fun _ => some EAGAIN } : HandlerEnv).recvmsgErr 0
        = some EAGAIN) :=
  ⟨by decide, rfl, by decide,
   (C14_error_probe_amended { exEnv with recvmsgErr := fun _ => some EAGAIN } exPoll exHeap 0
      ⟨EPOLLERR ||| EPOLLIN, 5⟩ exPoll.buf 1 [] (by decide) rfl (by decide) (by decide)
      (by decide)).2.2.1⟩

/-! ### `do()` and `done()` -/

theorem handleEvent_counts (env : HandlerEnv) (p : defaultPoll) (h : Heap) (i : Nat)
    (ev : epollevent) (buf : List Nat) (trigger : Nat) (hups : List Nat) :
    (handleEvent env p h i ev buf trigger hups).trace.countP isDone =
      (handleEvent env p h i ev buf trigger hups).trace.countP isDoTrue := by
  by_cases hw : (h ev.data).FD = (h p.wop).FD
  · rw [handleEvent_wake _ _ _ _ _ _ _ _ hw]
    split <;> rfl
  · unfold handleEvent
    simp only [hw, if_false]
    repeat' split
    all_goals rfl

theorem handlerLoop_counts (env : HandlerEnv) (p : defaultPoll) (h : Heap) :
    ∀ (events : List epollevent) (i : Nat) (buf : List Nat) (trigger : Nat)
      (hups : List Nat) (trace : List Effect),
      trace.countP isDone = trace.countP isDoTrue →
      (handlerLoop env p h i events buf trigger hups trace).trace.countP isDone =
        (handlerLoop env p h i events buf trigger hups trace).trace.countP isDoTrue := by
  intro events
  induction events with
  | nil => intro i buf trigger hups trace ht; exact ht
  | cons e rest ih =>
    intro i buf trigger hups trace ht
    have hstep : (trace ++ (handleEvent env p h i e buf trigger hups).trace).countP isDone =
        (trace ++ (handleEvent env p h i e buf trigger hups).trace).countP isDoTrue := by
      rw [List.countP_append, List.countP_append, ht, handleEvent_counts]
    rw [handlerLoop_cons]
    split
    · exact hstep
    · exact ih _ _ _ _ _ hstep

theorem detachCalls_counts (p : defaultPoll) (h : Heap) (hups : List Nat) :
    (hups.flatMap (detachCalls p h)).countP isDone = 0 ∧
    (hups.flatMap (detachCalls p h)).countP isDoTrue = 0 := by
  induction hups with
  | nil => exact ⟨rfl, rfl⟩
  | cons a rest ih =>
    rw [List.flatMap_cons, List.countP_append, List.countP_append, ih.1, ih.2]
    exact ⟨rfl, rfl⟩

/-- The calls of `handler`: those of its loop, and the calls of `detaches` when
the loop did not return and collected a hangup. -/
theorem handler_trace (env : HandlerEnv) (p : defaultPoll) (h : Heap)
    (events : List epollevent) :
    (handler env p h events).trace =
      (handlerLoop env p h 0 events p.buf p.trigger [] []).trace ∨
    ∃ onhups, (handler env p h events).trace =
      (handlerLoop env p h 0 events p.buf p.trigger [] []).trace ++
        ((handlerLoop env p h 0 events p.buf p.trigger [] []).hups.flatMap (detachCalls p h) ++
          [.spawn onhups]) := by
  unfold handler
  simp only
  split
  · exact Or.inl rfl
  · split
    · refine Or.inr ⟨hupTask ([] ++
        (handlerLoop env p h 0 events p.buf p.trigger [] []).hups.map
          (fun a => (h a).OnHup)), ?_⟩
      have hd := detachLoop_spec env
        { p with buf := (handlerLoop env p h 0 events p.buf p.trigger [] []).buf,
                 trigger := (handlerLoop env p h 0 events p.buf p.trigger [] []).trigger } h
        (handlerLoop env p h 0 events p.buf p.trigger [] []).hups 0 h [] []
        (fun b => ⟨rfl, rfl⟩)
      simp only [detaches, hd.1, hd.2, List.nil_append]
      rfl
    · exact Or.inl rfl

/-- C12: within one pass of `handler`, for an event that is not for the wake
descriptor: when `do()` answers `false` nothing else is done for the event
(no callback, no I/O, no enqueueing, no `done()`); when `do()` answers `true`
the calls for the event start with that `do()`, end with `done()`, and hold
exactly one `done()`, on every path, and the event does not end the pass.
So in every pass the number of `done()` calls equals the number of `do()`
calls that answered `true`. -/
theorem C12_do_done (env : HandlerEnv) (p : defaultPoll) (h : Heap)
    (events : List epollevent) :
    (∀ (i : Nat) (ev : epollevent) (buf : List Nat) (trigger : Nat) (hups : List Nat),
      (h ev.data).FD ≠ (h p.wop).FD →
      (env.doRes i = false →
        handleEvent env p h i ev buf trigger hups =
          { closed := false, buf := buf, trigger := trigger, hups := hups,
            trace := [.opDo ev.data false] }) ∧
      (env.doRes i = true →
        (handleEvent env p h i ev buf trigger hups).trace.head? = some (.opDo ev.data true) ∧
        (handleEvent env p h i ev buf trigger hups).trace.getLast? = some (.opDone ev.data) ∧
        (handleEvent env p h i ev buf trigger hups).trace.countP isDone = 1 ∧
        (handleEvent env p h i ev buf trigger hups).trace.countP isDo = 1 ∧
        (handleEvent env p h i ev buf trigger hups).closed = false)) ∧
    (handler env p h events).trace.countP isDone =
      (handler env p h events).trace.countP isDoTrue := by
  refine ⟨?_, ?_⟩
  · intro i ev buf trigger hups hwake
    refine ⟨fun hdo => ?_, fun hdo => ?_⟩
    · simp [handleEvent, hwake, hdo]
    · unfold handleEvent
      simp only [hwake, hdo, if_false, Bool.not_true, Bool.false_eq_true]
      repeat' split
      all_goals exact ⟨rfl, rfl, rfl, rfl, rfl⟩
  · have hl := handlerLoop_counts env p h events 0 p.buf p.trigger [] [] rfl
    rcases handler_trace env p h events with ht | ⟨onhups, ht⟩
    · rw [ht]; exact hl
    · have hd := detachCalls_counts p h
        (handlerLoop env p h 0 events p.buf p.trigger [] []).hups
      rw [ht, List.countP_append, List.countP_append, List.countP_append,
        List.countP_append, hd.1, hd.2, hl]
      rfl

/-- C12, at a concrete input: a pass over a hangup, an event whose `do()`
answers `false`, a failing read and a wake event: two `do()` calls answered
`true` and two `done()` calls were made. -/
theorem C12_do_done_witness :
    (handler { exEnv with doRes := fun i => decide (i ≠ 1) } exPoll exHeap
        [⟨EPOLLHUP, 2⟩, ⟨EPOLLIN, 7⟩, ⟨EPOLLIN, 5⟩, ⟨EPOLLIN, 0⟩]).trace =
      [.opDo 2 true, .opDone 2, .opDo 7 false,
       .opDo 5 true, .inputs 5, .readv 15, .inputAck 5 (-1), .log 15 104, .opDone 5,
       .sysRead 3, .storeTrigger, .sysClose 3, .sysClose 4] ∧
    (handler { exEnv with doRes := fun i => decide (i ≠ 1) } exPoll exHeap
        [⟨EPOLLHUP, 2⟩, ⟨EPOLLIN, 7⟩, ⟨EPOLLIN, 5⟩, ⟨EPOLLIN, 0⟩]).trace.countP isDone =
      (handler { exEnv with doRes := fun i => decide (i ≠ 1) } exPoll exHeap
        [⟨EPOLLHUP, 2⟩, ⟨EPOLLIN, 7⟩, ⟨EPOLLIN, 5⟩, ⟨EPOLLIN, 0⟩]).trace.countP isDoTrue :=
  ⟨by decide,
   (C12_do_done { exEnv with doRes := fun i => decide (i ≠ 1) } exPoll exHeap
      [⟨EPOLLHUP, 2⟩, ⟨EPOLLIN, 7⟩, ⟨EPOLLIN, 5⟩, ⟨EPOLLIN, 0⟩]).2⟩

/-! ### The size of the event array -/

theorem waitCalls_append (a b : List Effect) :
    waitCalls (a ++ b) = waitCalls a ++ waitCalls b := by
  simp [waitCalls, List.filterMap_append]

theorem waitCalls_handleEvent (env : HandlerEnv) (p : defaultPoll) (h : Heap) (i : Nat)
    (ev : epollevent) (buf : List Nat) (trigger : Nat) (hups : List Nat) :
    waitCalls (handleEvent env p h i ev buf trigger hups).trace = [] := by
  by_cases hw : (h ev.data).FD = (h p.wop).FD
  · rw [handleEvent_wake _ _ _ _ _ _ _ _ hw]
    split <;> rfl
  · unfold handleEvent
    simp only [hw, if_false]
    repeat' split
    all_goals rfl

theorem waitCalls_handlerLoop (env : HandlerEnv) (p : defaultPoll) (h : Heap) :
    ∀ (events : List epollevent) (i : Nat) (buf : List Nat) (trigger : Nat)
      (hups : List Nat) (trace : List Effect),
      waitCalls (handlerLoop env p h i events buf trigger hups trace).trace =
        waitCalls trace := by
  intro events
  induction events with
  | nil => intro i buf trigger hups trace; rfl
  | cons e rest ih =>
    intro i buf trigger hups trace
    have hstep : waitCalls (trace ++ (handleEvent env p h i e buf trigger hups).trace) =
        waitCalls trace := by
      rw [waitCalls_append, waitCalls_handleEvent, List.append_nil]
    rw [handlerLoop_cons]
    split
    · exact hstep
    · rw [ih]; exact hstep

theorem waitCalls_detachCalls (p : defaultPoll) (h : Heap) (hups : List Nat) :
    waitCalls (hups.flatMap (detachCalls p h)) = [] := by
  induction hups with
  | nil => rfl
  | cons a rest ih =>
    rw [List.flatMap_cons, waitCalls_append, ih]
    rfl

/-- The dispatch makes no kernel wait. -/
theorem waitCalls_handler (env : HandlerEnv) (p : defaultPoll) (h : Heap)
    (events : List epollevent) :
    waitCalls (handler env p h events).trace = [] := by
  have hl := waitCalls_handlerLoop env p h events 0 p.buf p.trigger [] []
  rcases handler_trace env p h events with ht | ⟨onhups, ht⟩
  · rw [ht, hl]; rfl
  · rw [ht, waitCalls_append, waitCalls_append, hl, waitCalls_detachCalls]
    rfl

/-- The dispatch leaves the arrays of the poller alone. -/
theorem handler_poll (env : HandlerEnv) (p : defaultPoll) (h : Heap)
    (events : List epollevent) :
    (handler env p h events).poll.size = p.size ∧
    (handler env p h events).poll.events = p.events ∧
    (handler env p h events).poll.barriers = p.barriers := by
  unfold handler
  simp only
  split
  · exact ⟨rfl, rfl, rfl⟩
  · split <;> exact ⟨rfl, rfl, rfl⟩

theorem storeEvents_length (events evs : List epollevent) :
    (storeEvents events evs).length = events.length := by
  simp only [storeEvents, List.length_append, List.length_take, List.length_drop]
  omega

theorem reset_inv (caps : Nat) (p : defaultPoll) (k : Nat) (hk : k ≤ 10) :
    WaitInv caps (p.reset (128 * 2 ^ k) caps) := by
  refine ⟨?_, ?_, k, hk, rfl⟩
  · simp [defaultPoll.reset]
  · simp [defaultPoll.reset]

theorem pow_bounds (k : Nat) (hk : k ≤ 10) :
    128 * 2 ^ k ≤ 131072 ∧ (128 * 2 ^ k < 131072 → k < 10) := by
  have h10 : (2 : Nat) ^ 10 = 1024 := by norm_num
  have hle : (2 : Nat) ^ k ≤ 2 ^ 10 := Nat.pow_le_pow_right (by norm_num) hk
  refine ⟨by omega, fun hlt => ?_⟩
  by_contra hge
  have hk10 : k = 10 := by omega
  rw [hk10, h10] at hlt
  omega

/-- The head of the loop of `Wait` keeps the invariant of the arrays and
follows the rule of the saturation heuristic. -/
theorem resize_inv (caps : Nat) (p : defaultPoll) (n : Int) (hinv : WaitInv caps p) :
    WaitInv caps (resize caps p n) ∧ (resize caps p n).size = nextSize p.size n := by
  obtain ⟨hlen, hbar, k, hk, hsize⟩ := hinv
  unfold resize nextSize
  by_cases hc : n = (p.size : Int) ∧ p.size < 128 * 1024
  · simp only [hc, and_self, if_true]
    have hk10 : k < 10 := (pow_bounds k hk).2 (by rw [← hsize]; exact hc.2)
    have hdouble : p.size <<< 1 = 128 * 2 ^ (k + 1) := by
      rw [Nat.shiftLeft_eq, hsize, pow_succ]; ring
    refine ⟨?_, ?_⟩
    · rw [hdouble]; exact reset_inv caps p (k + 1) (by omega)
    · show p.size <<< 1 = 2 * p.size
      rw [Nat.shiftLeft_eq]; ring
  · simp only [hc, if_false]
    exact ⟨⟨hlen, hbar, k, hk, hsize⟩, trivial⟩

/-- The waits of the loop of `Wait` follow the rule, and the arrays keep their
invariant. -/
theorem waitLoop_chain (caps : Nat) (env : WaitEnv) :
    ∀ (fuel k : Nat) (p : defaultPoll) (h : Heap) (msec n : Int) (trace : List Effect),
      WaitInv caps p →
      WaitInv caps (waitLoop caps env fuel k p h msec n trace).poll ∧
      ∃ calls, waitCalls (waitLoop caps env fuel k p h msec n trace).trace =
          waitCalls trace ++ calls ∧ SizeChain env k p.size n calls := by
  intro fuel
  induction fuel with
  | zero =>
    intro k p h msec n trace hinv
    exact ⟨hinv, [], by simp [waitLoop], trivial⟩
  | succ fuel ih =>
    intro k p h msec n trace hinv
    obtain ⟨hinv1, hsize1⟩ := resize_inv caps p n hinv
    have hlen1 : (resize caps p n).events.length = (resize caps p n).size := hinv1.1
    have hbar1 : (resize caps p n).barriers.length = (resize caps p n).size := by
      rw [hinv1.2.1]; simp
    have hinv2 : WaitInv caps
        { resize caps p n with
          events := storeEvents (resize caps p n).events
            (env.epollWait k (resize caps p n).events.length msec).events } :=
      ⟨by simp [storeEvents_length, hlen1], hinv1.2.1, hinv1.2.2⟩
    have hcall : waitCalls (trace ++
        [.epollWait (resize caps p n).fd (resize caps p n).events.length
          (resize caps p n).barriers.length msec]) =
        waitCalls trace ++ [((resize caps p n).size, (resize caps p n).size, msec)] := by
      rw [waitCalls_append, hlen1, hbar1]; rfl
    rw [waitLoop]
    simp only []
    split
    · exact ⟨hinv2, [((resize caps p n).size, (resize caps p n).size, msec)], hcall, hsize1, rfl, trivial⟩
    · split
      · obtain ⟨hi, calls, hc, hchain⟩ := ih (k + 1) _ h (-1)
          (EpollWait (env.epollWait k (resize caps p n).events.length msec)).1
          (trace ++ [.epollWait (resize caps p n).fd (resize caps p n).events.length
            (resize caps p n).barriers.length msec] ++ [.gosched]) hinv2
        refine ⟨hi, ((resize caps p n).size, (resize caps p n).size, msec) :: calls, ?_, hsize1, rfl, ?_⟩
        · rw [hc, waitCalls_append, hcall]
          simp [waitCalls]
        · rw [← hlen1] at hchain ⊢
          exact hchain
      · have hp := handler_poll (env.handlerEnv k)
          { resize caps p n with
            events := storeEvents (resize caps p n).events
              (env.epollWait k (resize caps p n).events.length msec).events } h
          ((storeEvents (resize caps p n).events
            (env.epollWait k (resize caps p n).events.length msec).events).take
            (EpollWait (env.epollWait k (resize caps p n).events.length msec)).1.toNat)
        have hinv3 : WaitInv caps (handler (env.handlerEnv k)
            { resize caps p n with
              events := storeEvents (resize caps p n).events
                (env.epollWait k (resize caps p n).events.length msec).events } h
            ((storeEvents (resize caps p n).events
              (env.epollWait k (resize caps p n).events.length msec).events).take
              (EpollWait (env.epollWait k (resize caps p n).events.length msec)).1.toNat)).poll := by
          unfold WaitInv
          rw [hp.1, hp.2.1, hp.2.2]
          exact hinv2
        split
        · refine ⟨hinv3, [((resize caps p n).size, (resize caps p n).size, msec)], ?_, hsize1, rfl, trivial⟩
          rw [waitCalls_append, waitCalls_handler, List.append_nil, hcall]
        · obtain ⟨hi, calls, hc, hchain⟩ := ih (k + 1) _ _ 0
            (EpollWait (env.epollWait k (resize caps p n).events.length msec)).1
            (trace ++ [.epollWait (resize caps p n).fd (resize caps p n).events.length
              (resize caps p n).barriers.length msec] ++
              (handler (env.handlerEnv k)
                { resize caps p n with
                  events := storeEvents (resize caps p n).events
                    (env.epollWait k (resize caps p n).events.length msec).events } h
                ((storeEvents (resize caps p n).events
                  (env.epollWait k (resize caps p n).events.length msec).events).take
                  (EpollWait (env.epollWait k (resize caps p n).events.length
                    msec)).1.toNat)).trace) hinv3
          refine ⟨hi, ((resize caps p n).size, (resize caps p n).size, msec) :: calls, ?_, hsize1, rfl, ?_⟩
          · rw [hc, waitCalls_append, waitCalls_handler, List.append_nil, hcall]
            simp
          · rw [hp.1] at hchain
            rw [← hlen1] at hchain ⊢
            exact hchain

theorem nextSize_ge (size : Nat) (n : Int) : size ≤ nextSize size n := by
  unfold nextSize
  split <;> omega

theorem nextSize_pow (e : Nat) (n : Int) (he : e ≤ 10) :
    ∃ e1, e1 ≤ 10 ∧ nextSize (128 * 2 ^ e) n = 128 * 2 ^ e1 := by
  unfold nextSize
  split
  · rename_i hc
    have hlt : e < 10 := (pow_bounds e he).2 hc.2
    exact ⟨e + 1, by omega, by rw [pow_succ]; ring⟩
  · exact ⟨e, he, rfl⟩

theorem SizeChain_index (env : WaitEnv) :
    ∀ (calls : List (Nat × Nat × Int)) (k size : Nat) (n : Int),
      SizeChain env k size n calls →
      (∀ a, calls[0]? = some a → a.1 = nextSize size n ∧ a.2.1 = a.1) ∧
      (∀ j a b, calls[j]? = some a → calls[j + 1]? = some b →
        b.1 = nextSize a.1 (env.epollWait (k + j) a.1 a.2.2).r0 ∧ b.2.1 = b.1) := by
  intro calls
  induction calls with
  | nil => intro k size n _; simp
  | cons c rest ih =>
    intro k size n hch
    obtain ⟨ne, nb, ms⟩ := c
    simp only [SizeChain] at hch
    obtain ⟨h1, h2, hrest⟩ := hch
    have hih := ih (k + 1) ne (env.epollWait k ne ms).r0 hrest
    refine ⟨?_, ?_⟩
    · intro a ha
      simp only [List.getElem?_cons_zero, Option.some.injEq] at ha
      subst ha
      exact ⟨h1, h2⟩
    · intro j a b ha hb
      cases j with
      | zero =>
        simp only [List.getElem?_cons_zero, Option.some.injEq] at ha
        subst ha
        simp only [Nat.zero_add, List.getElem?_cons_succ] at hb
        simpa using hih.1 b hb
      | succ j =>
        simp only [List.getElem?_cons_succ] at ha hb
        have := hih.2 j a b ha hb
        have hk : k + (j + 1) = k + 1 + j := by omega
        rw [hk]; exact this

theorem SizeChain_pow (env : WaitEnv) :
    ∀ (calls : List (Nat × Nat × Int)) (k e : Nat) (n : Int), e ≤ 10 →
      SizeChain env k (128 * 2 ^ e) n calls →
      ∀ a ∈ calls, a.2.1 = a.1 ∧ ∃ e1, e1 ≤ 10 ∧ a.1 = 128 * 2 ^ e1 := by
  intro calls
  induction calls with
  | nil => intro k e n _ _ a ha; simp at ha
  | cons c rest ih =>
    intro k e n he hch a ha
    obtain ⟨ne, nb, ms⟩ := c
    simp only [SizeChain] at hch
    obtain ⟨h1, h2, hrest⟩ := hch
    obtain ⟨e1, he1, hpow⟩ := nextSize_pow e n he
    rw [hpow] at h1
    rcases List.mem_cons.mp ha with rfl | hmem
    · exact ⟨h2, e1, he1, h1⟩
    · rw [h1] at hrest
      exact ih (k + 1) e1 _ he1 hrest a hmem

theorem sat_succ (e : Nat) :
    nextSize (min (128 * 2 ^ e) 131072) ((min (128 * 2 ^ e) 131072 : Nat) : Int) =
      min (128 * 2 ^ (e + 1)) 131072 := by
  have hsucc : (2 : Nat) ^ (e + 1) = 2 * 2 ^ e := by rw [pow_succ]; ring
  unfold nextSize
  by_cases he : e < 10
  · have hle : (2 : Nat) ^ e ≤ 2 ^ 9 := Nat.pow_le_pow_right (by norm_num) (by omega)
    have h9 : (2 : Nat) ^ 9 = 512 := by norm_num
    have hmin : min (128 * 2 ^ e) 131072 = 128 * 2 ^ e := by omega
    rw [hmin, hsucc]
    have hc : ((128 * 2 ^ e : Nat) : Int) = ((128 * 2 ^ e : Nat) : Int) ∧
        128 * 2 ^ e < 128 * 1024 := ⟨rfl, by omega⟩
    rw [if_pos hc]
    omega
  · have hge : (2 : Nat) ^ 10 ≤ 2 ^ e := Nat.pow_le_pow_right (by norm_num) (by omega)
    have h10 : (2 : Nat) ^ 10 = 1024 := by norm_num
    have hmin : min (128 * 2 ^ e) 131072 = 131072 := by omega
    rw [hmin, hsucc]
    have hc : ¬ (((131072 : Nat) : Int) = ((131072 : Nat) : Int) ∧ 131072 < 128 * 1024) := by
      omega
    rw [if_neg hc]
    omega

theorem SizeChain_saturated (env : WaitEnv) :
    ∀ (calls : List (Nat × Nat × Int)) (k size : Nat) (n : Int) (e m : Nat),
      SizeChain env k size n calls →
      nextSize size n = min (128 * 2 ^ e) 131072 →
      (∀ j a, j < m → calls[j]? = some a →
        (env.epollWait (k + j) a.1 a.2.2).r0 = (a.1 : Int)) →
      ∀ a, calls[m]? = some a → a.1 = min (128 * 2 ^ (e + m)) 131072 := by
  intro calls
  induction calls with
  | nil => intro k size n e m _ _ _ a ha; simp at ha
  | cons c rest ih =>
    intro k size n e m hch hstart hsat a ha
    obtain ⟨ne, nb, ms⟩ := c
    simp only [SizeChain] at hch
    obtain ⟨h1, h2, hrest⟩ := hch
    cases m with
    | zero =>
      simp only [List.getElem?_cons_zero, Option.some.injEq] at ha
      subst ha
      simpa [h1] using hstart
    | succ m =>
      simp only [List.getElem?_cons_succ] at ha
      have h0 := hsat 0 (ne, nb, ms) (by omega) (by simp)
      simp only [Nat.add_zero] at h0
      have hne : ne = min (128 * 2 ^ e) 131072 := by rw [h1]; exact hstart
      have hnext : nextSize ne (env.epollWait k ne ms).r0 = min (128 * 2 ^ (e + 1)) 131072 := by
        rw [h0, hne]; exact sat_succ e
      have := ih (k + 1) ne (env.epollWait k ne ms).r0 (e + 1) m hrest hnext
        (by
          intro j b hj hb
          have := hsat (j + 1) b (by omega) (by simpa using hb)
          have hk : k + (j + 1) = k + 1 + j := by omega
          rw [hk] at this; exact this)
        a ha
      have hem : e + (m + 1) = e + 1 + m := by omega
      rw [hem]; exact this

/-- C13: in `Wait`, whenever the loop is at its head or has returned, the event
array and the barrier array both have length `size`, every barrier holds
`caps` byte-slice and `caps` iovec slots, and `size` is `128 * 2^k` with
`k ≤ 10`; the same holds after the resizing at the head of the loop, that is
at the kernel wait.  Every kernel wait is made with both arrays of the same
length `128 * 2^k`, `k ≤ 10`, so at most 131072; the first with 128; each next
one with the doubled length exactly when the wait before returned as many
events as the array held and the length was below `128 * 1024`, and with the
same length otherwise (also after `EINTR` and after a wait without events),
so the length never shrinks; and after `m` saturated waits from the start
the length is `min (128 * 2^m) 131072`. -/
theorem C13_wait_sizes (caps : Nat) (env : WaitEnv) (fuel : Nat) (p : defaultPoll)
    (h : Heap) :
    ((defaultPoll.Wait caps env fuel p h).poll.events.length
        = (defaultPoll.Wait caps env fuel p h).poll.size ∧
      (defaultPoll.Wait caps env fuel p h).poll.barriers
        = List.replicate (defaultPoll.Wait caps env fuel p h).poll.size ⟨caps, caps⟩ ∧
      (∃ k, k ≤ 10 ∧ (defaultPoll.Wait caps env fuel p h).poll.size = 128 * 2 ^ k) ∧
      ∀ n, WaitInv caps (resize caps (defaultPoll.Wait caps env fuel p h).poll n)) ∧
    (∀ (j : Nat) (a : Nat × Nat × Int),
      (waitCalls (defaultPoll.Wait caps env fuel p h).trace)[j]? = some a →
      a.2.1 = a.1 ∧ a.1 ≤ 131072 ∧ ∃ k, k ≤ 10 ∧ a.1 = 128 * 2 ^ k) ∧
    (∀ a : Nat × Nat × Int,
      (waitCalls (defaultPoll.Wait caps env fuel p h).trace)[0]? = some a → a.1 = 128) ∧
    (∀ (j : Nat) (a b : Nat × Nat × Int),
      (waitCalls (defaultPoll.Wait caps env fuel p h).trace)[j]? = some a →
      (waitCalls (defaultPoll.Wait caps env fuel p h).trace)[j + 1]? = some b →
      b.1 = nextSize a.1 (env.epollWait j a.1 a.2.2).r0 ∧ a.1 ≤ b.1) ∧
    (∀ m : Nat, (∀ (j : Nat) (a : Nat × Nat × Int), j < m →
        (waitCalls (defaultPoll.Wait caps env fuel p h).trace)[j]? = some a →
        (env.epollWait j a.1 a.2.2).r0 = (a.1 : Int)) →
      ∀ a : Nat × Nat × Int,
        (waitCalls (defaultPoll.Wait caps env fuel p h).trace)[m]? = some a →
        a.1 = min (128 * 2 ^ m) 131072) := by
  have hstart : WaitInv caps (p.reset 128 caps) := by
    have := reset_inv caps p 0 (by omega)
    simpa using this
  obtain ⟨hinv, calls, hcalls, hchain⟩ :=
    waitLoop_chain caps env fuel 0 (p.reset 128 caps) h (-1) 0 [] hstart
  have hw : waitCalls (defaultPoll.Wait caps env fuel p h).trace = calls := by
    unfold defaultPoll.Wait
    rw [hcalls]; rfl
  have hsize0 : (p.reset 128 caps).size = 128 := rfl
  rw [hsize0] at hchain
  have hidx := SizeChain_index env calls 0 128 0 hchain
  have hpow := SizeChain_pow env calls 0 0 0 (by omega) (by simpa using hchain)
  rw [hw]
  refine ⟨⟨hinv.1, hinv.2.1, hinv.2.2, fun n => (resize_inv caps _ n hinv).1⟩, ?_, ?_, ?_, ?_⟩
  · intro j a ha
    obtain ⟨h1, e, he, h2⟩ := hpow a (List.getElem?_mem ha)
    exact ⟨h1, by rw [h2]; exact (pow_bounds e he).1, e, he, h2⟩
  · intro a ha
    have := (hidx.1 a ha).1
    rw [this]
    rfl
  · intro j a b ha hb
    have := (hidx.2 j a b ha hb).1
    rw [Nat.zero_add] at this
    exact ⟨this, by rw [this]; exact nextSize_ge _ _⟩
  · intro m hsat a ha
    have := SizeChain_saturated env calls 0 128 0 0 m hchain (by decide)
      (by intro j b hj hb; rw [Nat.zero_add]; exact hsat j b hj hb) a ha
    rw [Nat.zero_add] at this
    exact this

set_option maxRecDepth 1000000 in
set_option maxHeartbeats 4000000 in
/-- C13, at a concrete input: three saturated waits are made with arrays of
128, 256 and 512 entries. -/
theorem C13_wait_sizes_witness :
    waitCalls (defaultPoll.Wait 32 exSatEnv 3 exPoll exHeap).trace =
      [(128, 128, -1), (256, 256, 0), (512, 512, 0)] ∧
    ∀ a : Nat × Nat × Int,
      (waitCalls (defaultPoll.Wait 32 exSatEnv 3 exPoll exHeap).trace)[2]? = some a →
      a.1 = min (128 * 2 ^ 2) 131072 :=
  have hcalls : waitCalls (defaultPoll.Wait 32 exSatEnv 3 exPoll exHeap).trace =
      [(128, 128, -1), (256, 256, 0), (512, 512, 0)] := by decide
  ⟨hcalls,
   (C13_wait_sizes 32 exSatEnv 3 exPoll exHeap).2.2.2.2 2
     (by
       intro j a hj ha
       have hj3 : j = 0 ∨ j = 1 := by omega
       rw [hcalls] at ha
       rcases hj3 with rfl | rfl
       · simp at ha; subst ha; rfl
       · simp at ha; subst ha; rfl)⟩

end Netpoll
